import Mathlib

/-!
Shallow embedding of the reversible-operation engine of
`src/modules/tas_studio/editor/operation.rs` (bxt-rs TAS studio).

Modelling conventions:
* Machine integers (`u32`, `usize`) become `Nat`; the `u32` range shows up
  explicitly where the code checks it (`NonZeroU32::new`, `checked_add`).
* `f32` yaw values are modelled as `Int`: the operations only compare and
  store yaws, never compute with them, and every `assert_eq!` precondition
  rejects `NaN` anyway, so only decidable equality of yaw values is observable.
* A Rust panic (`expect` / `assert!` / `unwrap` / out-of-bounds) is modelled
  as `Except.error d` where `d` is the document state at the moment of the
  panic; success is `Except.ok (document, invalidation)`.
* The frame-addressing helpers and the HLTAS line parser live outside the
  embedded source file; they are modelled from the spec, as marked on each.
-/

namespace TasStudio

/-- Movement key flags of a frame bulk (spec §3 `FrameBulk` key flags). -/
structure MovementKeys where
  forward : Bool
  left : Bool
  right : Bool
  back : Bool
  up : Bool
  down : Bool
deriving DecidableEq

/-- Action key flags of a frame bulk (spec §3 `FrameBulk` key flags). -/
structure ActionKeys where
  jump : Bool
  duck : Bool
  use_ : Bool
  attack_1 : Bool
  attack_2 : Bool
  reload : Bool
deriving DecidableEq

/-- A frame bulk: `frame_count` repeated frames sharing the other data
(spec §3; `hltas::types::FrameBulk` as abstracted by the spec's data model).
`frame_count` is `NonZeroU32` in the source; here it is a `Nat` and the
`0 < _ < 2^32` invariant is the explicit well-formedness predicate below. -/
structure FrameBulk where
  frame_count : Nat
  yaw : Option Int
  left_right_count : Option Nat
  movement_keys : MovementKeys
  action_keys : ActionKeys
deriving DecidableEq

/-- A script line: a frame bulk or an opaque other line kept verbatim
(spec §3 `Line`). -/
inductive Line where
  | FrameBulk (bulk : FrameBulk)
  | other (text : String)
deriving DecidableEq

/-- The script document: an ordered sequence of lines (`hltas::HLTAS` as
abstracted by the spec: only `lines` is ever touched by operations). -/
structure HLTAS where
  lines : List Line
deriving DecidableEq

/-- Modelled from the spec: the external black-box parser `hltas::read::line`
(spec §1, §6) is out of scope; a stored line text is represented by its parse
result — `some l` for text that parses to line `l`, `none` for unparseable
text. Operations observe stored text only through `parse`, so this quotient
loses nothing they can distinguish. -/
abbrev LineText : Type := Option Line

/-- Modelled from the spec: the parse step of `hltas::read::line` on the
`LineText` representation. -/
def parse (t : LineText) : Option Line := t

/-- The key identifiers of `Operation::ToggleKey` (source `enum Key`). -/
inductive Key where
  | Forward
  | Left
  | Right
  | Back
  | Up
  | Down
  | Jump
  | Duck
  | Use
  | Attack1
  | Attack2
  | Reload
deriving DecidableEq

/-- The operation taxonomy (source `enum Operation`); the constructor order
is the source's variant order, which the durable encoding relies on.
`from` is a Lean keyword, so the source's `from` fields are named `from_`. -/
inductive Operation where
  | SetFrameCount (bulk_idx : Nat) (from_ : Nat) (to_ : Nat)
  | SetYaw (bulk_idx : Nat) (from_ : Int) (to_ : Int)
  | Delete (line_idx : Nat) (line : LineText)
  | Split (frame_idx : Nat)
  | Replace (line_idx : Nat) (from_ : LineText) (to_ : LineText)
  | ToggleKey (bulk_idx : Nat) (key : Key) (to_ : Bool)
  | Insert (line_idx : Nat) (line : LineText)
  | SetLeftRightCount (bulk_idx : Nat) (from_ : Nat) (to_ : Nat)
deriving DecidableEq

/-- Read role of `Key::value_mut`: the current value of the addressed flag. -/
def Key.value (k : Key) (bulk : FrameBulk) : Bool :=
  match k with
  | .Forward => bulk.movement_keys.forward
  | .Left => bulk.movement_keys.left
  | .Right => bulk.movement_keys.right
  | .Back => bulk.movement_keys.back
  | .Up => bulk.movement_keys.up
  | .Down => bulk.movement_keys.down
  | .Jump => bulk.action_keys.jump
  | .Duck => bulk.action_keys.duck
  | .Use => bulk.action_keys.use_
  | .Attack1 => bulk.action_keys.attack_1
  | .Attack2 => bulk.action_keys.attack_2
  | .Reload => bulk.action_keys.reload

/-- Write role of `Key::value_mut`: the bulk with the addressed flag set to
`v`, the explicit get/set pair the spec's design note asks for (§9). -/
def Key.setValue (k : Key) (v : Bool) (bulk : FrameBulk) : FrameBulk :=
  match k with
  | .Forward => { bulk with movement_keys := { bulk.movement_keys with forward := v } }
  | .Left => { bulk with movement_keys := { bulk.movement_keys with left := v } }
  | .Right => { bulk with movement_keys := { bulk.movement_keys with right := v } }
  | .Back => { bulk with movement_keys := { bulk.movement_keys with back := v } }
  | .Up => { bulk with movement_keys := { bulk.movement_keys with up := v } }
  | .Down => { bulk with movement_keys := { bulk.movement_keys with down := v } }
  | .Jump => { bulk with action_keys := { bulk.action_keys with jump := v } }
  | .Duck => { bulk with action_keys := { bulk.action_keys with duck := v } }
  | .Use => { bulk with action_keys := { bulk.action_keys with use_ := v } }
  | .Attack1 => { bulk with action_keys := { bulk.action_keys with attack_1 := v } }
  | .Attack2 => { bulk with action_keys := { bulk.action_keys with attack_2 := v } }
  | .Reload => { bulk with action_keys := { bulk.action_keys with reload := v } }

/-- Modelled from the spec: §4.1 `bulkStartFrame` composed with `Iterator::nth`
(the source's `bulk_and_first_frame_idx(hltas).nth(bulk_idx)` from
`editor/utils.rs`, absent from `src/`). For the `n`-th frame-bulk line
(0-based among bulks only) it returns its line index, the bulk, and the
absolute frame index at which the bulk starts: the prefix sum of the
`frame_count` of all preceding frame-bulk lines. -/
def bulk_and_first_frame_idx : List Line → Nat → Option (Nat × FrameBulk × Nat)
  | [], _ => none
  | .FrameBulk bulk :: _, 0 => some (0, bulk, 0)
  | .FrameBulk bulk :: rest, n + 1 =>
    (bulk_and_first_frame_idx rest n).map
      fun (li, b, ff) => (li + 1, b, ff + bulk.frame_count)
  | .other _ :: rest, n =>
    (bulk_and_first_frame_idx rest n).map
      fun (li, b, ff) => (li + 1, b, ff)

/-- Modelled from the spec: §4.1 `lineStartFrame` composed with
`Iterator::nth` (the source's `line_first_frame_idx(hltas).nth(line_idx)`
from `editor/utils.rs`, absent from `src/`). For line index `n` it returns
the absolute frame index at which that line's content begins: the prefix sum
of preceding frame-bulk `frame_count` values; `none` iff `n` is past the end. -/
def line_first_frame_idx : List Line → Nat → Option Nat
  | [], _ => none
  | _ :: _, 0 => some 0
  | .FrameBulk bulk :: rest, n + 1 =>
    (line_first_frame_idx rest n).map (· + bulk.frame_count)
  | .other _ :: rest, n + 1 => line_first_frame_idx rest n

/-- Modelled from the spec: §4.1 `frameToLineAndOffset` (the source's
`line_idx_and_repeat_at_frame` from `editor/utils.rs`, absent from `src/`).
Returns the index of the frame-bulk line owning absolute frame `frame_idx`
together with the offset (`repeat`) of that frame inside the bulk, and fails
when `frame_idx` is past the end of the expanded timeline. -/
def line_idx_and_repeat_at_frame : List Line → Nat → Option (Nat × Nat)
  | [], _ => none
  | .FrameBulk bulk :: rest, frame_idx =>
    if frame_idx < bulk.frame_count then
      some (0, frame_idx)
    else
      (line_idx_and_repeat_at_frame rest (frame_idx - bulk.frame_count)).map
        fun (li, rep) => (li + 1, rep)
  | .other _ :: rest, frame_idx =>
    (line_idx_and_repeat_at_frame rest frame_idx).map
      fun (li, rep) => (li + 1, rep)

/-- The `u32` bound of the source's frame counts. -/
def u32Size : Nat := 2 ^ 32

/-- Well-formedness a document built by the Rust code always has: every
frame count is a `NonZeroU32` and every stored left-right count is a
`NonZeroU32` (only the bounds the embedded checks consult are included). -/
def Line.wf : Line → Bool
  | .FrameBulk bulk =>
    decide (0 < bulk.frame_count) && decide (bulk.frame_count < u32Size) &&
      bulk.left_right_count.all fun c => decide (0 < c && c < u32Size)
  | .other _ => true

/-- A document is well-formed when all of its lines are. -/
def HLTAS.wf (s : HLTAS) : Bool := s.lines.all Line.wf

instance {ε α : Type} [DecidableEq ε] [DecidableEq α] : DecidableEq (Except ε α) :=
  fun x y =>
    match x, y with
    | .ok a, .ok b => decidable_of_iff (a = b) (by simp)
    | .error a, .error b => decidable_of_iff (a = b) (by simp)
    | .ok _, .error _ => isFalse (by simp)
    | .error _, .ok _ => isFalse (by simp)

/-- `Operation::apply`: applies the operation, returning the updated document
and the index of the first affected frame (`none` when all frames remain
valid), or `Except.error` carrying the document state at the failure point
when a precondition check panics. -/
def Operation.apply (op : Operation) (hltas : HLTAS) :
    Except HLTAS (HLTAS × Option Nat) :=
  match op with
  | .SetFrameCount bulk_idx from_ to_ =>
    match bulk_and_first_frame_idx hltas.lines bulk_idx with
    | none => .error hltas
    | some (li, bulk, first_frame_idx) =>
      if bulk.frame_count = from_ then
        if from_ ≠ to_ then
          if 0 < to_ then
            .ok (⟨hltas.lines.set li (.FrameBulk { bulk with frame_count := to_ })⟩,
              some (first_frame_idx + min from_ to_))
          else .error hltas
        else .ok (hltas, none)
      else .error hltas
  | .SetYaw bulk_idx from_ to_ =>
    match bulk_and_first_frame_idx hltas.lines bulk_idx with
    | none => .error hltas
    | some (li, bulk, first_frame_idx) =>
      match bulk.yaw with
      | none => .error hltas
      | some yaw =>
        if yaw = from_ then
          if yaw ≠ to_ then
            .ok (⟨hltas.lines.set li (.FrameBulk { bulk with yaw := some to_ })⟩,
              some first_frame_idx)
          else .ok (hltas, none)
        else .error hltas
  | .Delete line_idx _ =>
    match line_first_frame_idx hltas.lines line_idx with
    | none => .error hltas
    | some first_frame_idx =>
      .ok (⟨hltas.lines.eraseIdx line_idx⟩, some first_frame_idx)
  | .Split frame_idx =>
    match line_idx_and_repeat_at_frame hltas.lines frame_idx with
    | none => .error hltas
    | some (line_idx, rep) =>
      if 0 < rep then
        match hltas.lines[line_idx]? with
        | some (.FrameBulk bulk) =>
          if 0 < bulk.frame_count - rep then
            .ok (⟨((hltas.lines.set line_idx
                (.FrameBulk { bulk with frame_count := rep })).insertIdx
                  (line_idx + 1)
                  (.FrameBulk { bulk with frame_count := bulk.frame_count - rep }))⟩,
              none)
          else .error hltas
        | _ => .error hltas
      else .error hltas
  | .Replace line_idx _ to_ =>
    match parse to_ with
    | none => .error hltas
    | some l =>
      match line_first_frame_idx hltas.lines line_idx with
      | none => .error hltas
      | some first_frame_idx =>
        .ok (⟨hltas.lines.set line_idx l⟩, some first_frame_idx)
  | .ToggleKey bulk_idx key to_ =>
    match bulk_and_first_frame_idx hltas.lines bulk_idx with
    | none => .error hltas
    | some (li, bulk, first_frame_idx) =>
      if key.value bulk ≠ to_ then
        .ok (⟨hltas.lines.set li (.FrameBulk (key.setValue to_ bulk))⟩,
          some first_frame_idx)
      else .error hltas
  | .Insert line_idx line =>
    match parse line with
    | none => .error hltas
    | some l =>
      if line_idx ≤ hltas.lines.length then
        let lines' := hltas.lines.insertIdx line_idx l
        match line_first_frame_idx lines' line_idx with
        | none => .error ⟨lines'⟩
        | some first_frame_idx => .ok (⟨lines'⟩, some first_frame_idx)
      else .error hltas
  | .SetLeftRightCount bulk_idx from_ to_ =>
    match bulk_and_first_frame_idx hltas.lines bulk_idx with
    | none => .error hltas
    | some (li, bulk, first_frame_idx) =>
      match bulk.left_right_count with
      | none => .error hltas
      | some count =>
        if count = from_ then
          if from_ ≠ to_ then
            if 0 < to_ then
              .ok (⟨hltas.lines.set li
                  (.FrameBulk { bulk with left_right_count := some to_ })⟩,
                some first_frame_idx)
            else .error hltas
          else .ok (hltas, none)
        else .error hltas

/-- `Operation::undo`: undoes the operation, with the same result convention
as `Operation.apply`. In the `Split` arm the source removes the previous
line *before* checking that it is a frame bulk and that the merged count
fits in a `u32`; the error payloads of that arm reflect the document state
at those panic points. -/
def Operation.undo (op : Operation) (hltas : HLTAS) :
    Except HLTAS (HLTAS × Option Nat) :=
  match op with
  | .SetFrameCount bulk_idx from_ to_ =>
    match bulk_and_first_frame_idx hltas.lines bulk_idx with
    | none => .error hltas
    | some (li, bulk, first_frame_idx) =>
      if bulk.frame_count = to_ then
        if from_ ≠ to_ then
          if 0 < from_ then
            .ok (⟨hltas.lines.set li (.FrameBulk { bulk with frame_count := from_ })⟩,
              some (first_frame_idx + min from_ to_))
          else .error hltas
        else .ok (hltas, none)
      else .error hltas
  | .SetYaw bulk_idx from_ to_ =>
    match bulk_and_first_frame_idx hltas.lines bulk_idx with
    | none => .error hltas
    | some (li, bulk, first_frame_idx) =>
      match bulk.yaw with
      | none => .error hltas
      | some yaw =>
        if yaw = to_ then
          if yaw ≠ from_ then
            .ok (⟨hltas.lines.set li (.FrameBulk { bulk with yaw := some from_ })⟩,
              some first_frame_idx)
          else .ok (hltas, none)
        else .error hltas
  | .Delete line_idx line =>
    match parse line with
    | none => .error hltas
    | some l =>
      if line_idx ≤ hltas.lines.length then
        let lines' := hltas.lines.insertIdx line_idx l
        match line_first_frame_idx lines' line_idx with
        | none => .error ⟨lines'⟩
        | some first_frame_idx => .ok (⟨lines'⟩, some first_frame_idx)
      else .error hltas
  | .Split frame_idx =>
    match line_idx_and_repeat_at_frame hltas.lines frame_idx with
    | none => .error hltas
    | some (line_idx, rep) =>
      if rep = 0 then
        if 0 < line_idx then
          match hltas.lines[line_idx - 1]? with
          | none => .error hltas
          | some removed =>
            let lines₁ := hltas.lines.eraseIdx (line_idx - 1)
            match removed with
            | .FrameBulk prev_bulk =>
              match lines₁[line_idx - 1]? with
              | some (.FrameBulk bulk) =>
                if bulk.frame_count + prev_bulk.frame_count < u32Size then
                  .ok (⟨lines₁.set (line_idx - 1)
                      (.FrameBulk { bulk with
                        frame_count := bulk.frame_count + prev_bulk.frame_count })⟩,
                    none)
                else .error ⟨lines₁⟩
              | _ => .error ⟨lines₁⟩
            | _ => .error ⟨lines₁⟩
        else .error hltas
      else .error hltas
  | .Replace line_idx from_ _ =>
    match parse from_ with
    | none => .error hltas
    | some l =>
      match line_first_frame_idx hltas.lines line_idx with
      | none => .error hltas
      | some first_frame_idx =>
        .ok (⟨hltas.lines.set line_idx l⟩, some first_frame_idx)
  | .ToggleKey bulk_idx key to_ =>
    match bulk_and_first_frame_idx hltas.lines bulk_idx with
    | none => .error hltas
    | some (li, bulk, first_frame_idx) =>
      if key.value bulk = to_ then
        .ok (⟨hltas.lines.set li (.FrameBulk (key.setValue (!to_) bulk))⟩,
          some first_frame_idx)
      else .error hltas
  | .Insert line_idx _ =>
    match line_first_frame_idx hltas.lines line_idx with
    | none => .error hltas
    | some first_frame_idx =>
      .ok (⟨hltas.lines.eraseIdx line_idx⟩, some first_frame_idx)
  | .SetLeftRightCount bulk_idx from_ to_ =>
    match bulk_and_first_frame_idx hltas.lines bulk_idx with
    | none => .error hltas
    | some (li, bulk, first_frame_idx) =>
      match bulk.left_right_count with
      | none => .error hltas
      | some count =>
        if count = to_ then
          if from_ ≠ to_ then
            if 0 < from_ then
              .ok (⟨hltas.lines.set li
                  (.FrameBulk { bulk with left_right_count := some from_ })⟩,
                some first_frame_idx)
            else .error hltas
          else .ok (hltas, none)
        else .error hltas

/-! ### List helper lemmas -/

theorem set_self_of_getElem? {α : Type} (ls : List α) (i : Nat) (x : α)
    (h : ls[i]? = some x) : ls.set i x = ls := by
  induction ls generalizing i with
  | nil => simp at h
  | cons a rest ih =>
    cases i with
    | zero => simp at h; simp [h]
    | succ j => simp only [List.getElem?_cons_succ] at h; simp [ih j h]

theorem insertIdx_eraseIdx_of_getElem? {α : Type} (ls : List α) (i : Nat) (x : α)
    (h : ls[i]? = some x) : (ls.eraseIdx i).insertIdx i x = ls := by
  induction ls generalizing i with
  | nil => simp at h
  | cons a rest ih =>
    cases i with
    | zero => simp at h; simp [List.insertIdx_zero, List.eraseIdx, h]
    | succ j =>
      simp only [List.getElem?_cons_succ] at h
      rw [List.eraseIdx_cons_succ, List.insertIdx_succ_cons, ih j h]

theorem eraseIdx_insertIdx_self {α : Type} (ls : List α) (i : Nat) (x : α)
    (h : i ≤ ls.length) : (ls.insertIdx i x).eraseIdx i = ls := by
  induction ls generalizing i with
  | nil =>
    cases i with
    | zero => simp [List.insertIdx_zero, List.eraseIdx]
    | succ j => simp at h
  | cons a rest ih =>
    cases i with
    | zero => simp [List.insertIdx_zero, List.eraseIdx]
    | succ j =>
      simp only [List.length_cons, Nat.succ_le_succ_iff] at h
      rw [List.insertIdx_succ_cons, List.eraseIdx_cons_succ, ih j h]

theorem eraseIdx_insertIdx_succ {α : Type} (ls : List α) (i : Nat) (x : α) :
    (ls.insertIdx (i + 1) x).eraseIdx i = ls.set i x := by
  induction ls generalizing i with
  | nil => simp [List.insertIdx_succ_nil, List.eraseIdx]
  | cons a rest ih =>
    cases i with
    | zero => simp [List.insertIdx_succ_cons, List.insertIdx_zero, List.eraseIdx]
    | succ j => rw [List.insertIdx_succ_cons, List.eraseIdx_cons_succ, ih j, List.set_cons_succ]

theorem getElem?_insertIdx_lt {α : Type} (ls : List α) (n : Nat) (x : α) (j : Nat)
    (h : j < n) : (ls.insertIdx n x)[j]? = ls[j]? := by
  induction ls generalizing n j with
  | nil =>
    match n, h with
    | n + 1, _ => simp [List.insertIdx_succ_nil]
  | cons a rest ih =>
    match n, h with
    | n + 1, h =>
      cases j with
      | zero => simp [List.insertIdx_succ_cons]
      | succ j =>
        simp only [List.insertIdx_succ_cons, List.getElem?_cons_succ]
        exact ih n j (Nat.lt_of_succ_lt_succ h)

/-! ### Frame-addressing lemmas -/

theorem bulk_getElem? (ls : List Line) (n li : Nat) (b : FrameBulk) (ff : Nat)
    (h : bulk_and_first_frame_idx ls n = some (li, b, ff)) :
    ls[li]? = some (.FrameBulk b) := by
  induction ls generalizing n li ff with
  | nil => simp [bulk_and_first_frame_idx] at h
  | cons a rest ih =>
    match a, n with
    | .FrameBulk bulk, 0 =>
      simp only [bulk_and_first_frame_idx] at h
      obtain ⟨rfl, rfl, rfl⟩ := by exact Prod.mk.injEq .. ▸ (Option.some.injEq .. ▸ h :)
      simp
    | .FrameBulk bulk, n + 1 =>
      simp only [bulk_and_first_frame_idx, Option.map_eq_some'] at h
      obtain ⟨⟨li', b', ff'⟩, h1, h2⟩ := h
      simp only [Prod.mk.injEq] at h2
      obtain ⟨rfl, rfl, rfl⟩ := h2
      simpa using ih n li' ff' h1
    | .other t, n =>
      simp only [bulk_and_first_frame_idx, Option.map_eq_some'] at h
      obtain ⟨⟨li', b', ff'⟩, h1, h2⟩ := h
      simp only [Prod.mk.injEq] at h2
      obtain ⟨rfl, rfl, rfl⟩ := h2
      simpa using ih n li' ff' h1

theorem bulk_set (ls : List Line) (n li : Nat) (b b' : FrameBulk) (ff : Nat)
    (h : bulk_and_first_frame_idx ls n = some (li, b, ff)) :
    bulk_and_first_frame_idx (ls.set li (.FrameBulk b')) n = some (li, b', ff) := by
  induction ls generalizing n li ff with
  | nil => simp [bulk_and_first_frame_idx] at h
  | cons a rest ih =>
    match a, n with
    | .FrameBulk bulk, 0 =>
      simp only [bulk_and_first_frame_idx] at h
      obtain ⟨rfl, rfl, rfl⟩ := by exact Prod.mk.injEq .. ▸ (Option.some.injEq .. ▸ h :)
      simp [bulk_and_first_frame_idx]
    | .FrameBulk bulk, n + 1 =>
      simp only [bulk_and_first_frame_idx, Option.map_eq_some'] at h
      obtain ⟨⟨li', b'', ff'⟩, h1, h2⟩ := h
      simp only [Prod.mk.injEq] at h2
      obtain ⟨rfl, rfl, rfl⟩ := h2
      simp only [List.set_cons_succ, bulk_and_first_frame_idx, ih n li' ff' h1,
        Option.map_some']
    | .other t, n =>
      simp only [bulk_and_first_frame_idx, Option.map_eq_some'] at h
      obtain ⟨⟨li', b'', ff'⟩, h1, h2⟩ := h
      simp only [Prod.mk.injEq] at h2
      obtain ⟨rfl, rfl, rfl⟩ := h2
      simp only [List.set_cons_succ, bulk_and_first_frame_idx, ih n li' ff' h1,
        Option.map_some']

theorem lff_isSome (ls : List Line) (n : Nat) :
    (line_first_frame_idx ls n).isSome = true ↔ n < ls.length := by
  induction ls generalizing n with
  | nil => simp [line_first_frame_idx]
  | cons a rest ih =>
    match a, n with
    | _, 0 => simp [line_first_frame_idx]
    | .FrameBulk bulk, n + 1 =>
      simpa [line_first_frame_idx] using ih n
    | .other t, n + 1 =>
      simpa [line_first_frame_idx] using ih n

theorem lrep_getElem? (ls : List Line) (fi li r : Nat)
    (h : line_idx_and_repeat_at_frame ls fi = some (li, r)) :
    ∃ b : FrameBulk, ls[li]? = some (.FrameBulk b) ∧ r < b.frame_count := by
  induction ls generalizing fi li r with
  | nil => simp [line_idx_and_repeat_at_frame] at h
  | cons a rest ih =>
    match a with
    | .FrameBulk bulk =>
      simp only [line_idx_and_repeat_at_frame] at h
      by_cases hlt : fi < bulk.frame_count
      · simp only [if_pos hlt, Option.some.injEq, Prod.mk.injEq] at h
        obtain ⟨rfl, rfl⟩ := h
        exact ⟨bulk, by simp, hlt⟩
      · simp only [if_neg hlt, Option.map_eq_some'] at h
        obtain ⟨⟨li', r'⟩, h1, h2⟩ := h
        simp only [Prod.mk.injEq] at h2
        obtain ⟨rfl, rfl⟩ := h2
        obtain ⟨b, hb, hr⟩ := ih (fi - bulk.frame_count) li' r' h1
        exact ⟨b, by simpa using hb, hr⟩
    | .other t =>
      simp only [line_idx_and_repeat_at_frame, Option.map_eq_some'] at h
      obtain ⟨⟨li', r'⟩, h1, h2⟩ := h
      simp only [Prod.mk.injEq] at h2
      obtain ⟨rfl, rfl⟩ := h2
      obtain ⟨b, hb, hr⟩ := ih fi li' r' h1
      exact ⟨b, by simpa using hb, hr⟩

theorem lrep_split (ls : List Line) (fi li r : Nat) (b₁ b₂ : FrameBulk)
    (h : line_idx_and_repeat_at_frame ls fi = some (li, r))
    (hb₁ : b₁.frame_count = r) (hb₂ : 0 < b₂.frame_count) :
    line_idx_and_repeat_at_frame
      ((ls.set li (.FrameBulk b₁)).insertIdx (li + 1) (.FrameBulk b₂)) fi
      = some (li + 1, 0) := by
  induction ls generalizing fi li r with
  | nil => simp [line_idx_and_repeat_at_frame] at h
  | cons a rest ih =>
    match a with
    | .FrameBulk bulk =>
      simp only [line_idx_and_repeat_at_frame] at h
      by_cases hlt : fi < bulk.frame_count
      · simp only [if_pos hlt, Option.some.injEq, Prod.mk.injEq] at h
        obtain ⟨rfl, rfl⟩ := h
        rw [List.set_cons_zero, List.insertIdx_succ_cons, List.insertIdx_zero]
        simp [line_idx_and_repeat_at_frame, hb₁, Nat.lt_irrefl, Nat.sub_self, hb₂]
      · simp only [if_neg hlt, Option.map_eq_some'] at h
        obtain ⟨⟨li', r'⟩, h1, h2⟩ := h
        simp only [Prod.mk.injEq] at h2
        obtain ⟨rfl, rfl⟩ := h2
        have := ih (fi - bulk.frame_count) li' r' h1 hb₁
        rw [List.set_cons_succ, List.insertIdx_succ_cons]
        simp only [line_idx_and_repeat_at_frame, if_neg hlt, this, Option.map_some']
    | .other t =>
      simp only [line_idx_and_repeat_at_frame, Option.map_eq_some'] at h
      obtain ⟨⟨li', r'⟩, h1, h2⟩ := h
      simp only [Prod.mk.injEq] at h2
      obtain ⟨rfl, rfl⟩ := h2
      have := ih fi li' r' h1 hb₁
      rw [List.set_cons_succ, List.insertIdx_succ_cons]
      simp only [line_idx_and_repeat_at_frame, this, Option.map_some']

/-- A well-formed document's frame-bulk lines have `NonZeroU32` frame counts. -/
theorem wf_getElem? (s : HLTAS) (li : Nat) (b : FrameBulk)
    (hwf : s.wf = true) (h : s.lines[li]? = some (.FrameBulk b)) :
    0 < b.frame_count ∧ b.frame_count < u32Size ∧
      ∀ c ∈ b.left_right_count, 0 < c ∧ c < u32Size := by
  have hmem : Line.FrameBulk b ∈ s.lines := List.getElem?_mem h
  have hl := (List.all_eq_true.mp hwf) _ hmem
  simp only [Line.wf, Bool.and_eq_true, decide_eq_true_eq] at hl
  obtain ⟨⟨h1, h2⟩, h3⟩ := hl
  refine ⟨h1, h2, fun c hc => ?_⟩
  cases hopt : b.left_right_count with
  | none => rw [hopt] at hc; simp at hc
  | some c' =>
    rw [hopt] at hc h3
    simp only [Option.mem_def, Option.some.injEq] at hc
    subst hc
    simpa [Option.all, Bool.and_eq_true, decide_eq_true_eq] using h3

/-! ### Key get/set lemmas -/

theorem Key.value_setValue (k : Key) (v : Bool) (b : FrameBulk) :
    k.value (k.setValue v b) = v := by cases k <;> rfl

theorem Key.value_setValue_ne (k k' : Key) (v : Bool) (b : FrameBulk)
    (h : k' ≠ k) : k'.value (k.setValue v b) = k'.value b := by
  cases k <;> cases k' <;> first | rfl | exact absurd rfl h

theorem Key.setValue_value (k : Key) (b : FrameBulk) :
    k.setValue (k.value b) b = b := by cases k <;> rfl

theorem Key.setValue_setValue (k : Key) (v w : Bool) (b : FrameBulk) :
    k.setValue w (k.setValue v b) = k.setValue w b := by cases k <;> rfl

theorem Key.setValue_frame_count (k : Key) (v : Bool) (b : FrameBulk) :
    (k.setValue v b).frame_count = b.frame_count := by cases k <;> rfl

theorem Key.setValue_yaw (k : Key) (v : Bool) (b : FrameBulk) :
    (k.setValue v b).yaw = b.yaw := by cases k <;> rfl

theorem Key.setValue_left_right_count (k : Key) (v : Bool) (b : FrameBulk) :
    (k.setValue v b).left_right_count = b.left_right_count := by cases k <;> rfl

/-! ### Round-trip helper lemmas, one per operation variant -/

theorem setFrameCount_roundtrip (s s' : HLTAS) (inv : Option Nat)
    (bulk_idx from_ to_ : Nat) (hwf : s.wf = true)
    (h : Operation.apply (.SetFrameCount bulk_idx from_ to_) s = .ok (s', inv)) :
    ∃ inv', Operation.undo (.SetFrameCount bulk_idx from_ to_) s' = .ok (s, inv') := by
  simp only [Operation.apply] at h
  split at h
  · simp at h
  next li bulk ff hb =>
    have hget := bulk_getElem? s.lines bulk_idx li bulk ff hb
    split at h
    next hfc =>
      subst hfc
      split at h
      next hne =>
        split at h
        next hpos =>
          simp only [Except.ok.injEq, Prod.mk.injEq] at h
          obtain ⟨rfl, rfl⟩ := h
          have hwfb := wf_getElem? s li bulk hwf hget
          have hb' := bulk_set s.lines bulk_idx li bulk { bulk with frame_count := to_ } ff hb
          exact ⟨some (ff + min bulk.frame_count to_), by
            simp [Operation.undo, hb', hne, hwfb.1, List.set_set,
              set_self_of_getElem? s.lines li (Line.FrameBulk bulk) hget]⟩
        · simp at h
      next hne =>
        simp only [Except.ok.injEq, Prod.mk.injEq] at h
        obtain ⟨rfl, rfl⟩ := h
        simp only [ne_eq, not_not] at hne
        exact ⟨none, by simp [Operation.undo, hb, hne]⟩
    · simp at h

theorem setYaw_roundtrip (s s' : HLTAS) (inv : Option Nat)
    (bulk_idx : Nat) (from_ to_ : Int)
    (h : Operation.apply (.SetYaw bulk_idx from_ to_) s = .ok (s', inv)) :
    ∃ inv', Operation.undo (.SetYaw bulk_idx from_ to_) s' = .ok (s, inv') := by
  simp only [Operation.apply] at h
  split at h
  · simp at h
  next li bulk ff hb =>
    have hget := bulk_getElem? s.lines bulk_idx li bulk ff hb
    split at h
    · simp at h
    next yaw hyaw =>
      split at h
      next hfrom =>
        subst hfrom
        split at h
        next hne =>
          simp only [Except.ok.injEq, Prod.mk.injEq] at h
          obtain ⟨rfl, rfl⟩ := h
          have hb' := bulk_set s.lines bulk_idx li bulk { bulk with yaw := some to_ } ff hb
          have hget' : s.lines[li]? = some (.FrameBulk { bulk with yaw := some yaw }) := by
            rw [← hyaw]; exact hget
          exact ⟨some ff, by
            simp [Operation.undo, hb', Ne.symm hne, List.set_set,
              set_self_of_getElem? s.lines li (Line.FrameBulk { bulk with yaw := some yaw })
                hget']⟩
        next hne =>
          simp only [Except.ok.injEq, Prod.mk.injEq] at h
          obtain ⟨rfl, rfl⟩ := h
          simp only [ne_eq, not_not] at hne
          exact ⟨none, by simp [Operation.undo, hb, hyaw, hne]⟩
      · simp at h

theorem setLeftRightCount_roundtrip (s s' : HLTAS) (inv : Option Nat)
    (bulk_idx from_ to_ : Nat) (hwf : s.wf = true)
    (h : Operation.apply (.SetLeftRightCount bulk_idx from_ to_) s = .ok (s', inv)) :
    ∃ inv', Operation.undo (.SetLeftRightCount bulk_idx from_ to_) s' = .ok (s, inv') := by
  simp only [Operation.apply] at h
  split at h
  · simp at h
  next li bulk ff hb =>
    have hget := bulk_getElem? s.lines bulk_idx li bulk ff hb
    split at h
    · simp at h
    next count hcount =>
      split at h
      next hfrom =>
        subst hfrom
        split at h
        next hne =>
          split at h
          next hpos =>
            simp only [Except.ok.injEq, Prod.mk.injEq] at h
            obtain ⟨rfl, rfl⟩ := h
            have hwfb := wf_getElem? s li bulk hwf hget
            have hcpos : 0 < count := (hwfb.2.2 count (by simp [hcount])).1
            have hb' := bulk_set s.lines bulk_idx li bulk
              { bulk with left_right_count := some to_ } ff hb
            have hget' :
                s.lines[li]? = some (.FrameBulk { bulk with left_right_count := some count }) := by
              rw [← hcount]; exact hget
            exact ⟨some ff, by
              simp [Operation.undo, hb', hne, hcpos, List.set_set,
                set_self_of_getElem? s.lines li
                  (Line.FrameBulk { bulk with left_right_count := some count }) hget']⟩
          · simp at h
        next hne =>
          simp only [Except.ok.injEq, Prod.mk.injEq] at h
          obtain ⟨rfl, rfl⟩ := h
          simp only [ne_eq, not_not] at hne
          exact ⟨none, by simp [Operation.undo, hb, hcount, hne]⟩
      · simp at h

theorem toggleKey_roundtrip (s s' : HLTAS) (inv : Option Nat)
    (bulk_idx : Nat) (key : Key) (to_ : Bool)
    (h : Operation.apply (.ToggleKey bulk_idx key to_) s = .ok (s', inv)) :
    ∃ inv', Operation.undo (.ToggleKey bulk_idx key to_) s' = .ok (s, inv') := by
  simp only [Operation.apply] at h
  split at h
  · simp at h
  next li bulk ff hb =>
    have hget := bulk_getElem? s.lines bulk_idx li bulk ff hb
    split at h
    next hne =>
      simp only [Except.ok.injEq, Prod.mk.injEq] at h
      obtain ⟨rfl, rfl⟩ := h
      have hval : key.value bulk = !to_ := by
        cases hv : key.value bulk <;> cases to_ <;> simp_all
      have hb' := bulk_set s.lines bulk_idx li bulk (key.setValue to_ bulk) ff hb
      exact ⟨some ff, by
        simp [Operation.undo, hb', Key.value_setValue, Key.setValue_setValue, ← hval,
          Key.setValue_value, List.set_set,
          set_self_of_getElem? s.lines li (Line.FrameBulk bulk) hget]⟩
    · simp at h


theorem delete_roundtrip (s s' : HLTAS) (inv : Option Nat)
    (line_idx : Nat) (line : LineText)
    (hcons : parse line = s.lines[line_idx]?)
    (h : Operation.apply (.Delete line_idx line) s = .ok (s', inv)) :
    ∃ inv', Operation.undo (.Delete line_idx line) s' = .ok (s, inv') := by
  simp only [Operation.apply] at h
  split at h
  · simp at h
  next ff hff =>
    simp only [Except.ok.injEq, Prod.mk.injEq] at h
    obtain ⟨rfl, rfl⟩ := h
    have hlt : line_idx < s.lines.length :=
      (lff_isSome s.lines line_idx).mp (by rw [hff]; rfl)
    have hgetl : s.lines[line_idx]? = some s.lines[line_idx] :=
      List.getElem?_eq_getElem hlt
    have hc : parse line = some s.lines[line_idx] := hcons.trans hgetl
    have hle : line_idx ≤ (s.lines.eraseIdx line_idx).length := by
      simp only [List.length_eraseIdx, if_pos hlt]; omega
    have hrt := insertIdx_eraseIdx_of_getElem? s.lines line_idx _ hgetl
    exact ⟨some ff, by simp [Operation.undo, hc, hle, hrt, hff]⟩

theorem insert_roundtrip (s s' : HLTAS) (inv : Option Nat)
    (line_idx : Nat) (line : LineText)
    (h : Operation.apply (.Insert line_idx line) s = .ok (s', inv)) :
    ∃ inv', Operation.undo (.Insert line_idx line) s' = .ok (s, inv') := by
  simp only [Operation.apply] at h
  split at h
  · simp at h
  next l hparse =>
    split at h
    next hle =>
      split at h
      · simp at h
      next ff hff =>
        simp only [Except.ok.injEq, Prod.mk.injEq] at h
        obtain ⟨rfl, rfl⟩ := h
        exact ⟨some ff, by
          simp [Operation.undo, hff, eraseIdx_insertIdx_self s.lines line_idx l hle]⟩
    · simp at h

theorem replace_roundtrip (s s' : HLTAS) (inv : Option Nat)
    (line_idx : Nat) (from_ to_ : LineText)
    (hcons : parse from_ = s.lines[line_idx]?)
    (h : Operation.apply (.Replace line_idx from_ to_) s = .ok (s', inv)) :
    ∃ inv', Operation.undo (.Replace line_idx from_ to_) s' = .ok (s, inv') := by
  simp only [Operation.apply] at h
  split at h
  · simp at h
  next l hparse =>
    split at h
    · simp at h
    next ff hff =>
      simp only [Except.ok.injEq, Prod.mk.injEq] at h
      obtain ⟨rfl, rfl⟩ := h
      have hlt : line_idx < s.lines.length :=
        (lff_isSome s.lines line_idx).mp (by rw [hff]; rfl)
      have hgetl : s.lines[line_idx]? = some s.lines[line_idx] :=
        List.getElem?_eq_getElem hlt
      have hc : parse from_ = some s.lines[line_idx] := hcons.trans hgetl
      obtain ⟨ff', hff'⟩ : ∃ ff',
          line_first_frame_idx (s.lines.set line_idx l) line_idx = some ff' :=
        Option.isSome_iff_exists.mp (by rw [lff_isSome]; simpa using hlt)
      exact ⟨some ff', by
        simp [Operation.undo, hc, hff', List.set_set,
          set_self_of_getElem? s.lines line_idx _ hgetl]⟩

theorem split_roundtrip (s s' : HLTAS) (inv : Option Nat) (frame_idx : Nat)
    (hwf : s.wf = true)
    (h : Operation.apply (.Split frame_idx) s = .ok (s', inv)) :
    inv = none ∧ Operation.undo (.Split frame_idx) s' = .ok (s, none) := by
  simp only [Operation.apply] at h
  split at h
  · simp at h
  next li rep hrep =>
    split at h
    next hrpos =>
      split at h
      next bulk hgetb =>
        split at h
        next hsub =>
          simp only [Except.ok.injEq, Prod.mk.injEq] at h
          obtain ⟨rfl, rfl⟩ := h
          refine ⟨rfl, ?_⟩
          obtain ⟨b', hb', hrlt'⟩ := lrep_getElem? s.lines frame_idx li rep hrep
          rw [hgetb] at hb'
          simp only [Option.some.injEq, Line.FrameBulk.injEq] at hb'
          subst hb'
          have hwfb := wf_getElem? s li bulk hwf hgetb
          have hlen : li < s.lines.length := by
            have := List.getElem?_eq_some.mp hgetb
            exact this.1
          have hsplit := lrep_split s.lines frame_idx li rep
            { bulk with frame_count := rep }
            { bulk with frame_count := bulk.frame_count - rep } hrep rfl hsub
          have hgl : ((s.lines.set li
              (Line.FrameBulk { bulk with frame_count := rep })).insertIdx (li + 1)
              (Line.FrameBulk { bulk with frame_count := bulk.frame_count - rep }))[li]?
              = some (Line.FrameBulk { bulk with frame_count := rep }) := by
            rw [getElem?_insertIdx_lt _ _ _ _ (Nat.lt_succ_self li)]
            exact List.getElem?_set_self (by simpa using hlen)
          have herase := eraseIdx_insertIdx_succ
            (s.lines.set li (Line.FrameBulk { bulk with frame_count := rep })) li
            (Line.FrameBulk { bulk with frame_count := bulk.frame_count - rep })
          have hcancel : bulk.frame_count - rep + rep = bulk.frame_count :=
            Nat.sub_add_cancel (Nat.le_of_lt hrlt')
          have hg2 : ((s.lines.set li
              (Line.FrameBulk { bulk with frame_count := rep })).set li
              (Line.FrameBulk { bulk with frame_count := bulk.frame_count - rep }))[li]?
              = some (Line.FrameBulk { bulk with frame_count := bulk.frame_count - rep }) := by
            rw [List.set_set]
            exact List.getElem?_set_self (by simpa using hlen)
          simp only [Operation.undo, hsplit, if_pos rfl, Nat.succ_pos, if_pos,
            Nat.add_sub_cancel, hgl, herase, hg2, List.set_set, hcancel,
            hwfb.2.1, if_true]
          have hg3 : (s.lines.set li
              (Line.FrameBulk { bulk with frame_count := bulk.frame_count - rep }))[li]?
              = some (Line.FrameBulk { bulk with frame_count := bulk.frame_count - rep }) :=
            List.getElem?_set_self (by simpa using hlen)
          simp only [hg3, hcancel]
          simp [hwfb.2.1, set_self_of_getElem? s.lines li (Line.FrameBulk bulk) hgetb]
        · simp at h
      · simp at h
    · simp at h

/-- The stored pre-edit text of an operation matches the document it is
applied to: for `Delete` the stored text parses to the line being removed,
for `Replace` the stored `from` text parses to the line being replaced.
Every other variant checks its stored pre-edit values itself during `apply`. -/
def Operation.consistent : Operation → HLTAS → Bool
  | .Delete line_idx line, s => decide (parse line = s.lines[line_idx]?)
  | .Replace line_idx from_ _, s => decide (parse from_ = s.lines[line_idx]?)
  | _, _ => true

/-- A frame bulk with the given frame count, yaw, and left-right count and
no key flags set, used in the concrete scenarios. -/
def plainBulk (frame_count : Nat) (yaw : Option Int)
    (left_right_count : Option Nat) : FrameBulk :=
  ⟨frame_count, yaw, left_right_count,
    ⟨false, false, false, false, false, false⟩,
    ⟨false, false, false, false, false, false⟩⟩

/-! ### Claim theorems -/

/-- C1, counterexample: the invertibility contract as stated fails on a
`Delete` whose stored text does not correspond to the removed line. On the
well-formed document `["a"]`, `Delete{line_idx: 0, line: text parsing to "b"}`
applies successfully, yet undoing the result yields `["b"] ≠ ["a"]`. -/
theorem C1_counterexample :
    (⟨[.other "a"]⟩ : HLTAS).wf = true ∧
    Operation.apply (.Delete 0 (some (.other "b"))) ⟨[.other "a"]⟩ =
      .ok (⟨[]⟩, some 0) ∧
    Operation.undo (.Delete 0 (some (.other "b"))) ⟨[]⟩ =
      .ok (⟨[.other "b"]⟩, some 0) ∧
    (⟨[.other "b"]⟩ : HLTAS) ≠ (⟨[.other "a"]⟩ : HLTAS) :=
  ⟨rfl, rfl, rfl, by decide⟩

/-- C1 (amended): for every operation `op` and well-formed document `s` on
which `op.apply` succeeds, and whose stored pre-edit text matches the
document where `op` is `Delete` (the stored text parses to the line being
removed) or `Replace` (the stored `from` parses to the line being replaced),
`op.undo` applied to the result returns a document equal to `s`. -/
theorem C1_invertibility_amended (op : Operation) (s s' : HLTAS) (inv : Option Nat)
    (hwf : s.wf = true) (hcons : op.consistent s = true)
    (happly : op.apply s = .ok (s', inv)) :
    ∃ inv', op.undo s' = .ok (s, inv') := by
  cases op with
  | SetFrameCount bulk_idx from_ to_ =>
    exact setFrameCount_roundtrip s s' inv bulk_idx from_ to_ hwf happly
  | SetYaw bulk_idx from_ to_ =>
    exact setYaw_roundtrip s s' inv bulk_idx from_ to_ happly
  | Delete line_idx line =>
    exact delete_roundtrip s s' inv line_idx line
      (by simpa [Operation.consistent] using hcons) happly
  | Split frame_idx =>
    exact ⟨none, (split_roundtrip s s' inv frame_idx hwf happly).2⟩
  | Replace line_idx from_ to_ =>
    exact replace_roundtrip s s' inv line_idx from_ to_
      (by simpa [Operation.consistent] using hcons) happly
  | ToggleKey bulk_idx key to_ =>
    exact toggleKey_roundtrip s s' inv bulk_idx key to_ happly
  | Insert line_idx line =>
    exact insert_roundtrip s s' inv line_idx line happly
  | SetLeftRightCount bulk_idx from_ to_ =>
    exact setLeftRightCount_roundtrip s s' inv bulk_idx from_ to_ hwf happly

/-- C1 witness: the amended invertibility theorem applied to
`SetFrameCount{bulk_idx: 0, from: 6, to: 10}` on a one-bulk document. -/
theorem C1_invertibility_amended_witness :
    (⟨[.FrameBulk (plainBulk 6 (some 10) none)]⟩ : HLTAS).wf = true ∧
    (Operation.SetFrameCount 0 6 10).consistent
      ⟨[.FrameBulk (plainBulk 6 (some 10) none)]⟩ = true ∧
    ∃ inv', Operation.undo (.SetFrameCount 0 6 10)
      ⟨[.FrameBulk (plainBulk 10 (some 10) none)]⟩ =
      .ok (⟨[.FrameBulk (plainBulk 6 (some 10) none)]⟩, inv') :=
  ⟨by decide, by decide,
    C1_invertibility_amended (.SetFrameCount 0 6 10)
      ⟨[.FrameBulk (plainBulk 6 (some 10) none)]⟩
      ⟨[.FrameBulk (plainBulk 10 (some 10) none)]⟩ (some 6)
      (by decide) (by decide) (by decide)⟩

/-- C2: splitting is exactly undone — whenever `Split{frame_idx}.apply`
succeeds on a well-formed document `s`, it reports invalidation `none` and
`Split{frame_idx}.undo` on the result returns exactly `s` with invalidation
`none`; and on a document with one bulk of repeat 10, `Split{frame_idx: 4}`
yields two bulks of repeat 4 then 6 with invalidation `none`. -/
theorem C2_split_exactness :
    (∀ (frame_idx : Nat) (s s' : HLTAS) (inv : Option Nat), s.wf = true →
      Operation.apply (.Split frame_idx) s = .ok (s', inv) →
      inv = none ∧ Operation.undo (.Split frame_idx) s' = .ok (s, none)) ∧
    Operation.apply (.Split 4) ⟨[.FrameBulk (plainBulk 10 (some 10) none)]⟩ =
      .ok (⟨[.FrameBulk (plainBulk 4 (some 10) none),
             .FrameBulk (plainBulk 6 (some 10) none)]⟩, none) :=
  ⟨fun frame_idx s s' inv hwf h => split_roundtrip s s' inv frame_idx hwf h,
    by decide⟩

/-- C2 witness: the split round-trip applied to the repeat-10 document at
`frame_idx = 4`. -/
theorem C2_split_exactness_witness :
    (none : Option Nat) = none ∧
    Operation.undo (.Split 4)
      ⟨[.FrameBulk (plainBulk 4 (some 10) none),
        .FrameBulk (plainBulk 6 (some 10) none)]⟩ =
      .ok (⟨[.FrameBulk (plainBulk 10 (some 10) none)]⟩, none) :=
  C2_split_exactness.1 4 ⟨[.FrameBulk (plainBulk 10 (some 10) none)]⟩
    ⟨[.FrameBulk (plainBulk 4 (some 10) none),
      .FrameBulk (plainBulk 6 (some 10) none)]⟩ none (by decide) (by decide)

/-- C3: `SetFrameCount{bulk_idx, from, to}.apply`, under the precondition
that the addressed bulk's current frame count equals `from` (and that `to`
is a valid `NonZeroU32` frame count when `from ≠ to`), sets it to `to` and
returns invalidation `start + min(from, to)` when `from ≠ to` and `none`
when `from = to`, where `start` is the bulk's absolute starting frame index;
in particular, on a one-bulk document of repeat 6,
`SetFrameCount{bulk_idx: 0, from: 6, to: 10}` yields a bulk of repeat 10
with invalidation index 6. -/
theorem C3_setFrameCount_formula :
    (∀ (s : HLTAS) (bulk_idx from_ to_ li ff : Nat) (bulk : FrameBulk),
      bulk_and_first_frame_idx s.lines bulk_idx = some (li, bulk, ff) →
      bulk.frame_count = from_ → (from_ ≠ to_ → 0 < to_) →
      Operation.apply (.SetFrameCount bulk_idx from_ to_) s =
        .ok (⟨s.lines.set li (.FrameBulk { bulk with frame_count := to_ })⟩,
          if from_ = to_ then none else some (ff + min from_ to_))) ∧
    Operation.apply (.SetFrameCount 0 6 10)
      ⟨[.FrameBulk (plainBulk 6 (some 10) none)]⟩ =
      .ok (⟨[.FrameBulk (plainBulk 10 (some 10) none)]⟩, some 6) := by
  constructor
  · intro s bulk_idx from_ to_ li ff bulk hb hfc hto
    have hget := bulk_getElem? s.lines bulk_idx li bulk ff hb
    subst hfc
    by_cases he : bulk.frame_count = to_
    · subst he
      simp [Operation.apply, hb, set_self_of_getElem? s.lines li _ hget]
    · exact by simp [Operation.apply, hb, he, hto he]
  · decide

/-- C3 witness: the formula applied to the repeat-6 document. -/
theorem C3_setFrameCount_formula_witness :
    Operation.apply (.SetFrameCount 0 6 10)
      ⟨[.FrameBulk (plainBulk 6 (some 10) none)]⟩ =
      .ok (⟨[Line.FrameBulk (plainBulk 6 (some 10) none)].set 0
          (.FrameBulk { plainBulk 6 (some 10) none with frame_count := 10 })⟩,
        if (6 : Nat) = 10 then none else some (0 + min 6 10)) :=
  C3_setFrameCount_formula.1 ⟨[.FrameBulk (plainBulk 6 (some 10) none)]⟩ 0 6 10 0 0
    (plainBulk 6 (some 10) none) (by decide) (by decide) (fun _ => by decide)

/-! ### Further list/addressing lemmas -/

theorem getElem?_eraseIdx_self {α : Type} (ls : List α) (k : Nat) :
    (ls.eraseIdx k)[k]? = ls[k + 1]? := by
  induction ls generalizing k with
  | nil => simp
  | cons a rest ih =>
    cases k with
    | zero => simp [List.eraseIdx]
    | succ j => simpa [List.eraseIdx] using ih j

theorem set_insertIdx_eq_append {α : Type} (ls : List α) (li : Nat) (x y : α)
    (h : li < ls.length) :
    (ls.set li x).insertIdx (li + 1) y = ls.take li ++ x :: y :: ls.drop (li + 1) := by
  induction ls generalizing li with
  | nil => simp at h
  | cons a rest ih =>
    cases li with
    | zero => simp [List.insertIdx_succ_cons, List.insertIdx_zero]
    | succ j =>
      simp only [List.length_cons, Nat.succ_lt_succ_iff] at h
      simp [List.insertIdx_succ_cons, List.set_cons_succ, ih j h]

/-- `frame_count` prefix sum of the first `n` lines — the absolute frame
index at which line `n` would start, defined totally. -/
def prefixFrames : List Line → Nat → Nat
  | _, 0 => 0
  | [], _ + 1 => 0
  | .FrameBulk bulk :: rest, n + 1 => bulk.frame_count + prefixFrames rest n
  | .other _ :: rest, n + 1 => prefixFrames rest n

theorem lff_eq_prefixFrames (ls : List Line) (n ff : Nat)
    (h : line_first_frame_idx ls n = some ff) : ff = prefixFrames ls n := by
  induction ls generalizing n ff with
  | nil => simp [line_first_frame_idx] at h
  | cons a rest ih =>
    match a, n with
    | _, 0 =>
      cases a <;>
        simpa [line_first_frame_idx, prefixFrames, eq_comm] using h
    | .FrameBulk bulk, n + 1 =>
      simp only [line_first_frame_idx, Option.map_eq_some'] at h
      obtain ⟨ff', h1, rfl⟩ := h
      simp [prefixFrames, ih n ff' h1, Nat.add_comm]
    | .other t, n + 1 =>
      simp only [line_first_frame_idx] at h
      simpa [prefixFrames] using ih n ff h

theorem lff_insertIdx_eq_prefixFrames (ls : List Line) (n : Nat) (l : Line) (ff : Nat)
    (h : line_first_frame_idx (ls.insertIdx n l) n = some ff) :
    ff = prefixFrames ls n := by
  induction ls generalizing n ff with
  | nil =>
    cases n with
    | zero =>
      rw [List.insertIdx_zero] at h
      simp [line_first_frame_idx, eq_comm] at h
      simp [prefixFrames, h]
    | succ j => rw [List.insertIdx_succ_nil] at h; simp [line_first_frame_idx] at h
  | cons a rest ih =>
    cases n with
    | zero =>
      rw [List.insertIdx_zero] at h
      cases l <;>
        simpa [line_first_frame_idx, prefixFrames, eq_comm] using h
    | succ j =>
      rw [List.insertIdx_succ_cons] at h
      match a with
      | .FrameBulk bulk =>
        simp only [line_first_frame_idx, Option.map_eq_some'] at h
        obtain ⟨ff', h1, rfl⟩ := h
        simp [prefixFrames, ih j ff' h1, Nat.add_comm]
      | .other t =>
        simp only [line_first_frame_idx] at h
        simpa [prefixFrames] using ih j ff h

/-! ### Failure-state helper lemmas (C4) -/

/-- Every failure of `Operation::apply` leaves the document untouched. -/
theorem apply_error_eq (op : Operation) (s s' : HLTAS)
    (h : op.apply s = .error s') : s' = s := by
  cases op with
  | Insert line_idx line =>
    simp only [Operation.apply] at h
    split at h
    · injection h with h; exact h.symm
    next l hparse =>
      split at h
      next hle =>
        split at h
        next hnone =>
          have hsome : (line_first_frame_idx (s.lines.insertIdx line_idx l)
              line_idx).isSome = true := by
            rw [lff_isSome, List.length_insertIdx _ _ hle]; omega
          rw [hnone] at hsome
          simp at hsome
        · simp at h
      · injection h with h; exact h.symm
  | SetFrameCount bulk_idx from_ to_ =>
    simp only [Operation.apply] at h
    repeat' split at h
    all_goals first | (injection h with h; exact h.symm) | simp at h
  | SetYaw bulk_idx from_ to_ =>
    simp only [Operation.apply] at h
    repeat' split at h
    all_goals first | (injection h with h; exact h.symm) | simp at h
  | Delete line_idx line =>
    simp only [Operation.apply] at h
    repeat' split at h
    all_goals first | (injection h with h; exact h.symm) | simp at h
  | Split frame_idx =>
    simp only [Operation.apply] at h
    repeat' split at h
    all_goals first | (injection h with h; exact h.symm) | simp at h
  | Replace line_idx from_ to_ =>
    simp only [Operation.apply] at h
    repeat' split at h
    all_goals first | (injection h with h; exact h.symm) | simp at h
  | ToggleKey bulk_idx key to_ =>
    simp only [Operation.apply] at h
    repeat' split at h
    all_goals first | (injection h with h; exact h.symm) | simp at h
  | SetLeftRightCount bulk_idx from_ to_ =>
    simp only [Operation.apply] at h
    repeat' split at h
    all_goals first | (injection h with h; exact h.symm) | simp at h

/-- Every failure of `Operation::undo` of a non-`Split` operation leaves the
document untouched; a `Split` undo failure leaves either the original
document or the document with line `line_idx - 1` removed (the source
removes that line before checking it is a frame bulk and that the merged
frame count fits in a `u32`). -/
theorem undo_error_characterization (op : Operation) (s s' : HLTAS)
    (h : op.undo s = .error s') :
    s' = s ∨ ∃ frame_idx li,
      op = .Split frame_idx ∧
      line_idx_and_repeat_at_frame s.lines frame_idx = some (li, 0) ∧ 0 < li ∧
      s' = ⟨s.lines.eraseIdx (li - 1)⟩ := by
  cases op with
  | Delete line_idx line =>
    left
    simp only [Operation.undo] at h
    split at h
    · injection h with h; exact h.symm
    next l hparse =>
      split at h
      next hle =>
        split at h
        next hnone =>
          have hsome : (line_first_frame_idx (s.lines.insertIdx line_idx l)
              line_idx).isSome = true := by
            rw [lff_isSome, List.length_insertIdx _ _ hle]; omega
          rw [hnone] at hsome
          simp at hsome
        · simp at h
      · injection h with h; exact h.symm
  | Split frame_idx =>
    simp only [Operation.undo] at h
    split at h
    · left; injection h with h; exact h.symm
    next li rep hrep =>
      split at h
      next hrep0 =>
        subst hrep0
        split at h
        next hli =>
          split at h
          · left; injection h with h; exact h.symm
          next removed hremoved =>
            split at h
            next prev =>
              split at h
              next bulk hbulk =>
                split at h
                · simp at h
                · injection h with h
                  exact Or.inr ⟨frame_idx, li, rfl, hrep, hli, h.symm⟩
              · injection h with h
                exact Or.inr ⟨frame_idx, li, rfl, hrep, hli, h.symm⟩
            · injection h with h
              exact Or.inr ⟨frame_idx, li, rfl, hrep, hli, h.symm⟩
        · left; injection h with h; exact h.symm
      · left; injection h with h; exact h.symm
  | SetFrameCount bulk_idx from_ to_ =>
    left
    simp only [Operation.undo] at h
    repeat' split at h
    all_goals first | (injection h with h; exact h.symm) | simp at h
  | SetYaw bulk_idx from_ to_ =>
    left
    simp only [Operation.undo] at h
    repeat' split at h
    all_goals first | (injection h with h; exact h.symm) | simp at h
  | Replace line_idx from_ to_ =>
    left
    simp only [Operation.undo] at h
    repeat' split at h
    all_goals first | (injection h with h; exact h.symm) | simp at h
  | ToggleKey bulk_idx key to_ =>
    left
    simp only [Operation.undo] at h
    repeat' split at h
    all_goals first | (injection h with h; exact h.symm) | simp at h
  | Insert line_idx line =>
    left
    simp only [Operation.undo] at h
    repeat' split at h
    all_goals first | (injection h with h; exact h.symm) | simp at h
  | SetLeftRightCount bulk_idx from_ to_ =>
    left
    simp only [Operation.undo] at h
    repeat' split at h
    all_goals first | (injection h with h; exact h.symm) | simp at h

/-- C4, counterexample: `Split::undo` mutates before failing. On the
well-formed document `[other "x", bulk 5]`, undoing `Split{frame_idx: 0}`
addresses the bulk at line 1 with repeat 0, removes line 0 — the opaque
line — and only then discovers it is not a frame bulk: the failure leaves
the document with that line removed, not as it was. -/
theorem C4_counterexample :
    (⟨[.other "x", .FrameBulk (plainBulk 5 none none)]⟩ : HLTAS).wf = true ∧
    Operation.undo (.Split 0) ⟨[.other "x", .FrameBulk (plainBulk 5 none none)]⟩ =
      .error ⟨[.FrameBulk (plainBulk 5 none none)]⟩ ∧
    (⟨[.FrameBulk (plainBulk 5 none none)]⟩ : HLTAS) ≠
      ⟨[.other "x", .FrameBulk (plainBulk 5 none none)]⟩ :=
  ⟨rfl, rfl, by decide⟩

/-- C4 (amended): on failure, `apply` always leaves the document exactly as
it was, and so does `undo` for every variant except `Split`; a failing
`Split` undo leaves either the original document, or — when the merge
preconditions fail after the removal — the document with the line before
the addressed bulk removed. -/
theorem C4_no_partial_mutation_amended :
    (∀ (op : Operation) (s s' : HLTAS), op.apply s = .error s' → s' = s) ∧
    (∀ (op : Operation) (s s' : HLTAS), (∀ frame_idx, op ≠ .Split frame_idx) →
      op.undo s = .error s' → s' = s) ∧
    (∀ (frame_idx : Nat) (s s' : HLTAS),
      Operation.undo (.Split frame_idx) s = .error s' →
      s' = s ∨ ∃ li, line_idx_and_repeat_at_frame s.lines frame_idx = some (li, 0) ∧
        0 < li ∧ s' = ⟨s.lines.eraseIdx (li - 1)⟩) := by
  refine ⟨apply_error_eq, fun op s s' hns h => ?_, fun frame_idx s s' h => ?_⟩
  · rcases undo_error_characterization op s s' h with heq | ⟨fi, li, hop, _⟩
    · exact heq
    · exact absurd hop (hns fi)
  · rcases undo_error_characterization (.Split frame_idx) s s' h with
      heq | ⟨fi, li, hop, hrep, hli, hs'⟩
    · exact Or.inl heq
    · injection hop with hfi
      subst hfi
      exact Or.inr ⟨li, hrep, hli, hs'⟩

/-- C4 witness: the no-partial-mutation theorem applied to a failing
`SetFrameCount` (stored `from` of 5 against an actual count of 6). -/
theorem C4_no_partial_mutation_amended_witness :
    Operation.apply (.SetFrameCount 0 5 6) ⟨[.FrameBulk (plainBulk 6 (some 10) none)]⟩ =
      .error ⟨[.FrameBulk (plainBulk 6 (some 10) none)]⟩ ∧
    (⟨[.FrameBulk (plainBulk 6 (some 10) none)]⟩ : HLTAS) =
      ⟨[.FrameBulk (plainBulk 6 (some 10) none)]⟩ :=
  ⟨by decide,
    C4_no_partial_mutation_amended.1 (.SetFrameCount 0 5 6)
      ⟨[.FrameBulk (plainBulk 6 (some 10) none)]⟩
      ⟨[.FrameBulk (plainBulk 6 (some 10) none)]⟩ (by decide)⟩

/-! ### Precondition predicates (C5) -/

/-- The precondition of `Operation::apply`, read off the `expect` / `assert!`
checks of the source: addressed bulk or line index in range, stored pre-edit
value equal to the actual field, stored text parseable, split point owned by
a bulk at a positive offset, and new values valid `NonZeroU32`s. -/
def Operation.applyPre : Operation → HLTAS → Bool
  | .SetFrameCount bulk_idx from_ to_, s =>
    match bulk_and_first_frame_idx s.lines bulk_idx with
    | some (_, bulk, _) => decide (bulk.frame_count = from_ ∧ (from_ ≠ to_ → 0 < to_))
    | none => false
  | .SetYaw bulk_idx from_ _, s =>
    match bulk_and_first_frame_idx s.lines bulk_idx with
    | some (_, bulk, _) => decide (bulk.yaw = some from_)
    | none => false
  | .Delete line_idx _, s => decide (line_idx < s.lines.length)
  | .Split frame_idx, s =>
    match line_idx_and_repeat_at_frame s.lines frame_idx with
    | some (_, rep) => decide (0 < rep)
    | none => false
  | .Replace line_idx _ to_, s =>
    decide (parse to_ ≠ none ∧ line_idx < s.lines.length)
  | .ToggleKey bulk_idx key to_, s =>
    match bulk_and_first_frame_idx s.lines bulk_idx with
    | some (_, bulk, _) => decide (key.value bulk ≠ to_)
    | none => false
  | .Insert line_idx line, s =>
    decide (parse line ≠ none ∧ line_idx ≤ s.lines.length)
  | .SetLeftRightCount bulk_idx from_ to_, s =>
    match bulk_and_first_frame_idx s.lines bulk_idx with
    | some (_, bulk, _) =>
      decide (bulk.left_right_count = some from_ ∧ (from_ ≠ to_ → 0 < to_))
    | none => false

/-- The precondition of `Operation::undo`, read off the source's checks. -/
def Operation.undoPre : Operation → HLTAS → Bool
  | .SetFrameCount bulk_idx from_ to_, s =>
    match bulk_and_first_frame_idx s.lines bulk_idx with
    | some (_, bulk, _) => decide (bulk.frame_count = to_ ∧ (from_ ≠ to_ → 0 < from_))
    | none => false
  | .SetYaw bulk_idx _ to_, s =>
    match bulk_and_first_frame_idx s.lines bulk_idx with
    | some (_, bulk, _) => decide (bulk.yaw = some to_)
    | none => false
  | .Delete line_idx line, s =>
    decide (parse line ≠ none ∧ line_idx ≤ s.lines.length)
  | .Split frame_idx, s =>
    match line_idx_and_repeat_at_frame s.lines frame_idx with
    | some (li, rep) =>
      decide (rep = 0 ∧ 0 < li) &&
        (match s.lines[li - 1]?, s.lines[li]? with
         | some (.FrameBulk prev), some (.FrameBulk bulk) =>
           decide (bulk.frame_count + prev.frame_count < u32Size)
         | _, _ => false)
    | none => false
  | .Replace line_idx from_ _, s =>
    decide (parse from_ ≠ none ∧ line_idx < s.lines.length)
  | .ToggleKey bulk_idx key to_, s =>
    match bulk_and_first_frame_idx s.lines bulk_idx with
    | some (_, bulk, _) => decide (key.value bulk = to_)
    | none => false
  | .Insert line_idx _, s => decide (line_idx < s.lines.length)
  | .SetLeftRightCount bulk_idx from_ to_, s =>
    match bulk_and_first_frame_idx s.lines bulk_idx with
    | some (_, bulk, _) =>
      decide (bulk.left_right_count = some to_ ∧ (from_ ≠ to_ → 0 < from_))
    | none => false

theorem applyPre_iff_ok (op : Operation) (s : HLTAS) :
    op.applyPre s = true ↔ ∃ r, op.apply s = .ok r := by
  cases op with
  | SetFrameCount bulk_idx from_ to_ =>
    simp only [Operation.apply, Operation.applyPre]
    rcases hb : bulk_and_first_frame_idx s.lines bulk_idx with _ | ⟨li, bulk, ff⟩
    · simp
    · by_cases h1 : bulk.frame_count = from_
      · by_cases h2 : from_ = to_
        · simp [h1, h2]
        · by_cases h3 : 0 < to_ <;> simp [h1, h2, h3]
      · simp [h1]
  | SetYaw bulk_idx from_ to_ =>
    simp only [Operation.apply, Operation.applyPre]
    rcases hb : bulk_and_first_frame_idx s.lines bulk_idx with _ | ⟨li, bulk, ff⟩
    · simp
    · rcases hy : bulk.yaw with _ | yaw
      · simp [hy]
      · by_cases h1 : yaw = from_
        · subst h1
          by_cases h2 : yaw = to_ <;> simp [hy, h2]
        · simp [hy, h1, Ne.symm h1]
  | Delete line_idx line =>
    simp only [Operation.apply, Operation.applyPre]
    rcases hff : line_first_frame_idx s.lines line_idx with _ | ff
    · have : ¬ line_idx < s.lines.length := by
        rw [← lff_isSome s.lines line_idx, hff]; simp
      simp [this]
    · have : line_idx < s.lines.length :=
        (lff_isSome s.lines line_idx).mp (by rw [hff]; rfl)
      simp [this]
  | Split frame_idx =>
    simp only [Operation.apply, Operation.applyPre]
    rcases hrep : line_idx_and_repeat_at_frame s.lines frame_idx with _ | ⟨li, rep⟩
    · simp
    · obtain ⟨b, hget, hlt⟩ := lrep_getElem? s.lines frame_idx li rep hrep
      by_cases h1 : 0 < rep
      · have h2 : 0 < b.frame_count - rep := by omega
        simp [h1, hget, h2]
      · simp [h1]
  | Replace line_idx from_ to_ =>
    simp only [Operation.apply, Operation.applyPre]
    rcases hp : parse to_ with _ | l
    · simp
    · rcases hff : line_first_frame_idx s.lines line_idx with _ | ff
      · have : ¬ line_idx < s.lines.length := by
          rw [← lff_isSome s.lines line_idx, hff]; simp
        simp [this]
      · have : line_idx < s.lines.length :=
          (lff_isSome s.lines line_idx).mp (by rw [hff]; rfl)
        simp [this]
  | ToggleKey bulk_idx key to_ =>
    simp only [Operation.apply, Operation.applyPre]
    rcases hb : bulk_and_first_frame_idx s.lines bulk_idx with _ | ⟨li, bulk, ff⟩
    · simp
    · by_cases h1 : key.value bulk = to_ <;> simp [h1]
  | Insert line_idx line =>
    simp only [Operation.apply, Operation.applyPre]
    rcases hp : parse line with _ | l
    · simp
    · by_cases h1 : line_idx ≤ s.lines.length
      · have hsome : (line_first_frame_idx (s.lines.insertIdx line_idx l)
            line_idx).isSome = true := by
          rw [lff_isSome, List.length_insertIdx _ _ h1]; omega
        obtain ⟨ff, hff⟩ := Option.isSome_iff_exists.mp hsome
        simp [h1, hff]
      · simp [h1]
  | SetLeftRightCount bulk_idx from_ to_ =>
    simp only [Operation.apply, Operation.applyPre]
    rcases hb : bulk_and_first_frame_idx s.lines bulk_idx with _ | ⟨li, bulk, ff⟩
    · simp
    · rcases hc : bulk.left_right_count with _ | count
      · simp [hc]
      · by_cases h1 : count = from_
        · by_cases h2 : from_ = to_
          · simp [hc, h1, h2]
          · by_cases h3 : 0 < to_ <;> simp [hc, h1, h2, h3]
        · simp [hc, h1]

theorem undoPre_iff_ok (op : Operation) (s : HLTAS) :
    op.undoPre s = true ↔ ∃ r, op.undo s = .ok r := by
  cases op with
  | SetFrameCount bulk_idx from_ to_ =>
    simp only [Operation.undo, Operation.undoPre]
    rcases hb : bulk_and_first_frame_idx s.lines bulk_idx with _ | ⟨li, bulk, ff⟩
    · simp
    · by_cases h1 : bulk.frame_count = to_
      · by_cases h2 : from_ = to_
        · simp [h1, h2]
        · by_cases h3 : 0 < from_ <;> simp [h1, h2, h3]
      · simp [h1]
  | SetYaw bulk_idx from_ to_ =>
    simp only [Operation.undo, Operation.undoPre]
    rcases hb : bulk_and_first_frame_idx s.lines bulk_idx with _ | ⟨li, bulk, ff⟩
    · simp
    · rcases hy : bulk.yaw with _ | yaw
      · simp [hy]
      · by_cases h1 : yaw = to_
        · subst h1
          by_cases h2 : yaw = from_ <;> simp [hy, h2]
        · simp [hy, h1, Ne.symm h1]
  | Delete line_idx line =>
    simp only [Operation.undo, Operation.undoPre]
    rcases hp : parse line with _ | l
    · simp
    · by_cases h1 : line_idx ≤ s.lines.length
      · have hsome : (line_first_frame_idx (s.lines.insertIdx line_idx l)
            line_idx).isSome = true := by
          rw [lff_isSome, List.length_insertIdx _ _ h1]; omega
        obtain ⟨ff, hff⟩ := Option.isSome_iff_exists.mp hsome
        simp [h1, hff]
      · simp [h1]
  | Split frame_idx =>
    simp only [Operation.undo, Operation.undoPre]
    rcases hrep : line_idx_and_repeat_at_frame s.lines frame_idx with _ | ⟨li, rep⟩
    · simp
    · obtain ⟨b, hget, hlt⟩ := lrep_getElem? s.lines frame_idx li rep hrep
      have hlen : li < s.lines.length := (List.getElem?_eq_some.mp hget).1
      by_cases h1 : rep = 0
      · subst h1
        by_cases h2 : 0 < li
        · have hli1 : li - 1 < s.lines.length := by omega
          rcases hprev : s.lines[li - 1]? with _ | removed
          · exact absurd hprev (by
              simp only [ne_eq, List.getElem?_eq_none_iff, not_le]
              omega)
          · have herase : (s.lines.eraseIdx (li - 1))[li - 1]? = s.lines[li]? := by
              rw [getElem?_eraseIdx_self]
              congr 1
              omega
            rcases removed with prev | t
            · by_cases h3 : b.frame_count + prev.frame_count < u32Size
              · simp [h2, hprev, hget, herase, h3]
              · simp [h2, hprev, hget, herase, h3]
            · simp [h2, hprev, hget, herase]
        · simp [h2]
      · simp [h1]
  | Replace line_idx from_ to_ =>
    simp only [Operation.undo, Operation.undoPre]
    rcases hp : parse from_ with _ | l
    · simp
    · rcases hff : line_first_frame_idx s.lines line_idx with _ | ff
      · have : ¬ line_idx < s.lines.length := by
          rw [← lff_isSome s.lines line_idx, hff]; simp
        simp [this]
      · have : line_idx < s.lines.length :=
          (lff_isSome s.lines line_idx).mp (by rw [hff]; rfl)
        simp [this]
  | ToggleKey bulk_idx key to_ =>
    simp only [Operation.undo, Operation.undoPre]
    rcases hb : bulk_and_first_frame_idx s.lines bulk_idx with _ | ⟨li, bulk, ff⟩
    · simp
    · by_cases h1 : key.value bulk = to_ <;> simp [h1]
  | Insert line_idx line =>
    simp only [Operation.undo, Operation.undoPre]
    rcases hff : line_first_frame_idx s.lines line_idx with _ | ff
    · have : ¬ line_idx < s.lines.length := by
        rw [← lff_isSome s.lines line_idx, hff]; simp
      simp [this]
    · have : line_idx < s.lines.length :=
        (lff_isSome s.lines line_idx).mp (by rw [hff]; rfl)
      simp [this]
  | SetLeftRightCount bulk_idx from_ to_ =>
    simp only [Operation.undo, Operation.undoPre]
    rcases hb : bulk_and_first_frame_idx s.lines bulk_idx with _ | ⟨li, bulk, ff⟩
    · simp
    · rcases hc : bulk.left_right_count with _ | count
      · simp [hc]
      · by_cases h1 : count = to_
        · by_cases h2 : from_ = to_
          · simp [hc, h1, h2]
          · by_cases h3 : 0 < from_ <;> simp [hc, h1, h2, h3]
        · simp [hc, h1]

/-- C5: `apply` and `undo` fail exactly when a precondition is violated —
out-of-range index, stored from/to value differing from the actual field,
unparseable stored text, or invalid split/merge point (including a merged
frame count exceeding `u32`) — and under satisfied preconditions every
failure branch is unreachable, so the call succeeds and returns an
invalidation result. Failure is the fatal path (a Rust panic, modelled as
`Except.error`). -/
theorem C5_preconditions_iff_success (op : Operation) (s : HLTAS) :
    (op.applyPre s = true ↔ ∃ r, op.apply s = .ok r) ∧
    (op.undoPre s = true ↔ ∃ r, op.undo s = .ok r) :=
  ⟨applyPre_iff_ok op s, undoPre_iff_ok op s⟩

/-- C5 witness: the equivalence applied to `Split{frame_idx: 4}` on the
repeat-10 document, whose apply precondition holds and is decidable. -/
theorem C5_preconditions_iff_success_witness :
    Operation.applyPre (.Split 4) ⟨[.FrameBulk (plainBulk 10 (some 10) none)]⟩ = true ∧
    ∃ r, Operation.apply (.Split 4) ⟨[.FrameBulk (plainBulk 10 (some 10) none)]⟩ = .ok r :=
  ⟨by decide,
    (C5_preconditions_iff_success (.Split 4)
      ⟨[.FrameBulk (plainBulk 10 (some 10) none)]⟩).1.mp (by decide)⟩

/-- C6: `ToggleKey{bulk_idx, key, to}.apply`, under the precondition that
the addressed bulk's current flag for `key` differs from `to`, sets exactly
that one key flag to `to` — leaving every other key flag, every other bulk
field, and every other line unchanged — and returns the bulk's starting
frame index as invalidation; undoing restores exactly the original
document. On a repeat-4 bulk with no flags set,
`ToggleKey{bulk_idx: 0, key: Forward, to: true}` sets only the forward flag. -/
theorem C6_toggleKey :
    (∀ (s : HLTAS) (bulk_idx li ff : Nat) (bulk : FrameBulk) (key : Key) (to_ : Bool),
      bulk_and_first_frame_idx s.lines bulk_idx = some (li, bulk, ff) →
      key.value bulk ≠ to_ →
      Operation.apply (.ToggleKey bulk_idx key to_) s =
        .ok (⟨s.lines.set li (.FrameBulk (key.setValue to_ bulk))⟩, some ff) ∧
      key.value (key.setValue to_ bulk) = to_ ∧
      (∀ k', k' ≠ key → k'.value (key.setValue to_ bulk) = k'.value bulk) ∧
      (key.setValue to_ bulk).frame_count = bulk.frame_count ∧
      (key.setValue to_ bulk).yaw = bulk.yaw ∧
      (key.setValue to_ bulk).left_right_count = bulk.left_right_count ∧
      Operation.undo (.ToggleKey bulk_idx key to_)
        ⟨s.lines.set li (.FrameBulk (key.setValue to_ bulk))⟩ = .ok (s, some ff)) ∧
    Operation.apply (.ToggleKey 0 .Forward true)
      ⟨[.FrameBulk (plainBulk 4 none none)]⟩ =
      .ok (⟨[.FrameBulk ⟨4, none, none,
        ⟨true, false, false, false, false, false⟩,
        ⟨false, false, false, false, false, false⟩⟩]⟩, some 0) := by
  constructor
  · intro s bulk_idx li ff bulk key to_ hb hne
    have hget := bulk_getElem? s.lines bulk_idx li bulk ff hb
    have hval : key.value bulk = !to_ := by
      cases hv : key.value bulk <;> cases to_ <;> simp_all
    have hb' := bulk_set s.lines bulk_idx li bulk (key.setValue to_ bulk) ff hb
    refine ⟨by simp [Operation.apply, hb, hne], Key.value_setValue key to_ bulk,
      fun k' hk' => Key.value_setValue_ne key k' to_ bulk hk',
      Key.setValue_frame_count key to_ bulk, Key.setValue_yaw key to_ bulk,
      Key.setValue_left_right_count key to_ bulk, ?_⟩
    simp [Operation.undo, hb', Key.value_setValue, Key.setValue_setValue, ← hval,
      Key.setValue_value, List.set_set,
      set_self_of_getElem? s.lines li (Line.FrameBulk bulk) hget]
  · decide

/-- C6 witness: the toggle-key theorem applied to the forward key on a
repeat-4 bulk with no flags set. -/
theorem C6_toggleKey_witness :
    Operation.apply (.ToggleKey 0 .Forward true)
      ⟨[.FrameBulk (plainBulk 4 none none)]⟩ =
      .ok (⟨[Line.FrameBulk (plainBulk 4 none none)].set 0
        (.FrameBulk (Key.Forward.setValue true (plainBulk 4 none none)))⟩, some 0) ∧
    Operation.undo (.ToggleKey 0 .Forward true)
      ⟨[Line.FrameBulk (plainBulk 4 none none)].set 0
        (.FrameBulk (Key.Forward.setValue true (plainBulk 4 none none)))⟩ =
      .ok (⟨[.FrameBulk (plainBulk 4 none none)]⟩, some 0) :=
  ⟨(C6_toggleKey.1 ⟨[.FrameBulk (plainBulk 4 none none)]⟩ 0 0 0
      (plainBulk 4 none none) .Forward true (by decide) (by decide)).1,
    (C6_toggleKey.1 ⟨[.FrameBulk (plainBulk 4 none none)]⟩ 0 0 0
      (plainBulk 4 none none) .Forward true (by decide) (by decide)).2.2.2.2.2.2⟩

/-- C7: for `SetFrameCount`, `SetYaw`, and `SetLeftRightCount` with
`from = to`, under the precondition that the current field value equals
`from`, both `apply` and `undo` return invalidation `none` and leave the
document completely unchanged. -/
theorem C7_noop_when_from_eq_to
    (s : HLTAS) (bulk_idx li ff : Nat) (bulk : FrameBulk)
    (hb : bulk_and_first_frame_idx s.lines bulk_idx = some (li, bulk, ff)) :
    (∀ v : Nat, bulk.frame_count = v →
      Operation.apply (.SetFrameCount bulk_idx v v) s = .ok (s, none) ∧
      Operation.undo (.SetFrameCount bulk_idx v v) s = .ok (s, none)) ∧
    (∀ v : Int, bulk.yaw = some v →
      Operation.apply (.SetYaw bulk_idx v v) s = .ok (s, none) ∧
      Operation.undo (.SetYaw bulk_idx v v) s = .ok (s, none)) ∧
    (∀ v : Nat, bulk.left_right_count = some v →
      Operation.apply (.SetLeftRightCount bulk_idx v v) s = .ok (s, none) ∧
      Operation.undo (.SetLeftRightCount bulk_idx v v) s = .ok (s, none)) := by
  refine ⟨fun v hv => ⟨?_, ?_⟩, fun v hv => ⟨?_, ?_⟩, fun v hv => ⟨?_, ?_⟩⟩ <;>
    simp [Operation.apply, Operation.undo, hb, hv]

/-- C7 witness: the no-op equations applied to the repeat-6 bulk document
(frame count 6, yaw 10, left-right count 3). -/
theorem C7_noop_when_from_eq_to_witness :
    Operation.apply (.SetFrameCount 0 6 6)
      ⟨[.FrameBulk (plainBulk 6 (some 10) (some 3))]⟩ =
      .ok (⟨[.FrameBulk (plainBulk 6 (some 10) (some 3))]⟩, none) ∧
    Operation.undo (.SetYaw 0 10 10)
      ⟨[.FrameBulk (plainBulk 6 (some 10) (some 3))]⟩ =
      .ok (⟨[.FrameBulk (plainBulk 6 (some 10) (some 3))]⟩, none) ∧
    Operation.apply (.SetLeftRightCount 0 3 3)
      ⟨[.FrameBulk (plainBulk 6 (some 10) (some 3))]⟩ =
      .ok (⟨[.FrameBulk (plainBulk 6 (some 10) (some 3))]⟩, none) :=
  ⟨((C7_noop_when_from_eq_to ⟨[.FrameBulk (plainBulk 6 (some 10) (some 3))]⟩ 0 0 0
      (plainBulk 6 (some 10) (some 3)) (by decide)).1 6 (by decide)).1,
    ((C7_noop_when_from_eq_to ⟨[.FrameBulk (plainBulk 6 (some 10) (some 3))]⟩ 0 0 0
      (plainBulk 6 (some 10) (some 3)) (by decide)).2.1 10 (by decide)).2,
    ((C7_noop_when_from_eq_to ⟨[.FrameBulk (plainBulk 6 (some 10) (some 3))]⟩ 0 0 0
      (plainBulk 6 (some 10) (some 3)) (by decide)).2.2 3 (by decide)).1⟩

/-- The addressed line or bulk of the operation starts at absolute frame 0
of the expanded timeline (under the spec's base-0 frame addressing).
`SetFrameCount` and `Split` never report invalidation 0, so they map to
`false`. -/
def Operation.targetsFrameZero : Operation → HLTAS → Bool
  | .SetFrameCount _ _ _, _ => false
  | .Split _, _ => false
  | .SetYaw bulk_idx _ _, s =>
    match bulk_and_first_frame_idx s.lines bulk_idx with
    | some (_, _, ff) => decide (ff = 0)
    | none => false
  | .ToggleKey bulk_idx _ _, s =>
    match bulk_and_first_frame_idx s.lines bulk_idx with
    | some (_, _, ff) => decide (ff = 0)
    | none => false
  | .SetLeftRightCount bulk_idx _ _, s =>
    match bulk_and_first_frame_idx s.lines bulk_idx with
    | some (_, _, ff) => decide (ff = 0)
    | none => false
  | .Delete line_idx _, s => decide (prefixFrames s.lines line_idx = 0)
  | .Replace line_idx _ _, s => decide (prefixFrames s.lines line_idx = 0)
  | .Insert line_idx _, s => decide (prefixFrames s.lines line_idx = 0)

/-- C9, counterexample: a successful call can report invalidation index 0.
`SetYaw` on the first bulk of a well-formed document returns invalidation
`some 0` — the start frame of that bulk under the spec's base-0 addressing. -/
theorem C9_counterexample :
    (⟨[.FrameBulk (plainBulk 5 (some 10) none)]⟩ : HLTAS).wf = true ∧
    Operation.apply (.SetYaw 0 10 15) ⟨[.FrameBulk (plainBulk 5 (some 10) none)]⟩ =
      .ok (⟨[.FrameBulk (plainBulk 5 (some 15) none)]⟩, some 0) :=
  ⟨rfl, rfl⟩

/-- C9 (amended): on a well-formed document, a successful `apply` or `undo`
returns invalidation `some 0` only when the addressed line or bulk starts at
absolute frame 0; `SetFrameCount` and `Split` never return invalidation 0. -/
theorem C9_invalidation_zero_amended (op : Operation) (s s' : HLTAS)
    (inv : Option Nat) (hwf : s.wf = true) :
    (op.apply s = .ok (s', inv) → inv = some 0 → op.targetsFrameZero s = true) ∧
    (op.undo s = .ok (s', inv) → inv = some 0 → op.targetsFrameZero s = true) := by
  cases op with
  | SetFrameCount bulk_idx from_ to_ =>
    constructor <;> intro h h0 <;> simp only [Operation.apply, Operation.undo] at h <;>
      split at h
    case _ => simp at h
    case _ li bulk ff hb =>
      have hget := bulk_getElem? s.lines bulk_idx li bulk ff hb
      have hwfb := wf_getElem? s li bulk hwf hget
      split at h
      next hfc =>
        split at h
        next hne =>
          split at h
          next hpos =>
            simp only [Except.ok.injEq, Prod.mk.injEq] at h
            obtain ⟨rfl, rfl⟩ := h
            simp only [Option.some.injEq] at h0
            have h1 := hwfb.1
            omega
          · simp at h
        next hne =>
          simp only [Except.ok.injEq, Prod.mk.injEq] at h
          obtain ⟨rfl, rfl⟩ := h
          simp at h0
      · simp at h
    case _ => simp at h
    case _ li bulk ff hb =>
      have hget := bulk_getElem? s.lines bulk_idx li bulk ff hb
      have hwfb := wf_getElem? s li bulk hwf hget
      split at h
      next hfc =>
        split at h
        next hne =>
          split at h
          next hpos =>
            simp only [Except.ok.injEq, Prod.mk.injEq] at h
            obtain ⟨rfl, rfl⟩ := h
            simp only [Option.some.injEq] at h0
            have h1 := hwfb.1
            omega
          · simp at h
        next hne =>
          simp only [Except.ok.injEq, Prod.mk.injEq] at h
          obtain ⟨rfl, rfl⟩ := h
          simp at h0
      · simp at h
  | SetYaw bulk_idx from_ to_ =>
    constructor <;> intro h h0 <;> simp only [Operation.apply, Operation.undo] at h <;>
      split at h
    case _ => simp at h
    case _ li bulk ff hb =>
      split at h
      · simp at h
      next yaw hyaw =>
        split at h
        next hfrom =>
          split at h
          next hne =>
            simp only [Except.ok.injEq, Prod.mk.injEq] at h
            obtain ⟨rfl, rfl⟩ := h
            simp only [Option.some.injEq] at h0
            simp [Operation.targetsFrameZero, hb, h0]
          next hne =>
            simp only [Except.ok.injEq, Prod.mk.injEq] at h
            obtain ⟨rfl, rfl⟩ := h
            simp at h0
        · simp at h
    case _ => simp at h
    case _ li bulk ff hb =>
      split at h
      · simp at h
      next yaw hyaw =>
        split at h
        next hfrom =>
          split at h
          next hne =>
            simp only [Except.ok.injEq, Prod.mk.injEq] at h
            obtain ⟨rfl, rfl⟩ := h
            simp only [Option.some.injEq] at h0
            simp [Operation.targetsFrameZero, hb, h0]
          next hne =>
            simp only [Except.ok.injEq, Prod.mk.injEq] at h
            obtain ⟨rfl, rfl⟩ := h
            simp at h0
        · simp at h
  | Delete line_idx line =>
    constructor <;> intro h h0 <;> simp only [Operation.apply, Operation.undo] at h
    · split at h
      · simp at h
      next ff hff =>
        simp only [Except.ok.injEq, Prod.mk.injEq] at h
        obtain ⟨rfl, rfl⟩ := h
        simp only [Option.some.injEq] at h0
        simp [Operation.targetsFrameZero,
          ← lff_eq_prefixFrames s.lines line_idx ff hff, h0]
    · split at h
      · simp at h
      next l hparse =>
        split at h
        next hle =>
          split at h
          · simp at h
          next ff hff =>
            simp only [Except.ok.injEq, Prod.mk.injEq] at h
            obtain ⟨rfl, rfl⟩ := h
            simp only [Option.some.injEq] at h0
            simp [Operation.targetsFrameZero,
              ← lff_insertIdx_eq_prefixFrames s.lines line_idx l ff hff, h0]
        · simp at h
  | Split frame_idx =>
    constructor <;> intro h h0 <;> subst h0 <;>
      simp only [Operation.apply, Operation.undo] at h <;>
      repeat' split at h
    all_goals simp at h
  | Replace line_idx from_ to_ =>
    constructor <;> intro h h0 <;> simp only [Operation.apply, Operation.undo] at h <;>
      split at h
    case _ => simp at h
    case _ l hparse =>
      split at h
      · simp at h
      next ff hff =>
        simp only [Except.ok.injEq, Prod.mk.injEq] at h
        obtain ⟨rfl, rfl⟩ := h
        simp only [Option.some.injEq] at h0
        simp [Operation.targetsFrameZero,
          ← lff_eq_prefixFrames s.lines line_idx ff hff, h0]
    case _ => simp at h
    case _ l hparse =>
      split at h
      · simp at h
      next ff hff =>
        simp only [Except.ok.injEq, Prod.mk.injEq] at h
        obtain ⟨rfl, rfl⟩ := h
        simp only [Option.some.injEq] at h0
        simp [Operation.targetsFrameZero,
          ← lff_eq_prefixFrames s.lines line_idx ff hff, h0]
  | ToggleKey bulk_idx key to_ =>
    constructor <;> intro h h0 <;> simp only [Operation.apply, Operation.undo] at h <;>
      split at h
    case _ => simp at h
    case _ li bulk ff hb =>
      split at h
      next hne =>
        simp only [Except.ok.injEq, Prod.mk.injEq] at h
        obtain ⟨rfl, rfl⟩ := h
        simp only [Option.some.injEq] at h0
        simp [Operation.targetsFrameZero, hb, h0]
      · simp at h
    case _ => simp at h
    case _ li bulk ff hb =>
      split at h
      next hne =>
        simp only [Except.ok.injEq, Prod.mk.injEq] at h
        obtain ⟨rfl, rfl⟩ := h
        simp only [Option.some.injEq] at h0
        simp [Operation.targetsFrameZero, hb, h0]
      · simp at h
  | Insert line_idx line =>
    constructor <;> intro h h0 <;> simp only [Operation.apply, Operation.undo] at h
    · split at h
      · simp at h
      next l hparse =>
        split at h
        next hle =>
          split at h
          · simp at h
          next ff hff =>
            simp only [Except.ok.injEq, Prod.mk.injEq] at h
            obtain ⟨rfl, rfl⟩ := h
            simp only [Option.some.injEq] at h0
            simp [Operation.targetsFrameZero,
              ← lff_insertIdx_eq_prefixFrames s.lines line_idx l ff hff, h0]
        · simp at h
    · split at h
      · simp at h
      next ff hff =>
        simp only [Except.ok.injEq, Prod.mk.injEq] at h
        obtain ⟨rfl, rfl⟩ := h
        simp only [Option.some.injEq] at h0
        simp [Operation.targetsFrameZero,
          ← lff_eq_prefixFrames s.lines line_idx ff hff, h0]
  | SetLeftRightCount bulk_idx from_ to_ =>
    constructor <;> intro h h0 <;> simp only [Operation.apply, Operation.undo] at h <;>
      split at h
    case _ => simp at h
    case _ li bulk ff hb =>
      split at h
      · simp at h
      next count hcount =>
        split at h
        next hfrom =>
          split at h
          next hne =>
            split at h
            next hpos =>
              simp only [Except.ok.injEq, Prod.mk.injEq] at h
              obtain ⟨rfl, rfl⟩ := h
              simp only [Option.some.injEq] at h0
              simp [Operation.targetsFrameZero, hb, h0]
            · simp at h
          next hne =>
            simp only [Except.ok.injEq, Prod.mk.injEq] at h
            obtain ⟨rfl, rfl⟩ := h
            simp at h0
        · simp at h
    case _ => simp at h
    case _ li bulk ff hb =>
      split at h
      · simp at h
      next count hcount =>
        split at h
        next hfrom =>
          split at h
          next hne =>
            split at h
            next hpos =>
              simp only [Except.ok.injEq, Prod.mk.injEq] at h
              obtain ⟨rfl, rfl⟩ := h
              simp only [Option.some.injEq] at h0
              simp [Operation.targetsFrameZero, hb, h0]
            · simp at h
          next hne =>
            simp only [Except.ok.injEq, Prod.mk.injEq] at h
            obtain ⟨rfl, rfl⟩ := h
            simp at h0
        · simp at h

/-- C9 witness: the amended theorem applied to the `SetYaw` call that
reports invalidation 0, confirming its target starts at frame 0. -/
theorem C9_invalidation_zero_amended_witness :
    Operation.targetsFrameZero (.SetYaw 0 10 15)
      ⟨[.FrameBulk (plainBulk 5 (some 10) none)]⟩ = true :=
  (C9_invalidation_zero_amended (.SetYaw 0 10 15)
    ⟨[.FrameBulk (plainBulk 5 (some 10) none)]⟩
    ⟨[.FrameBulk (plainBulk 5 (some 15) none)]⟩ (some 0) (by decide)).1
    (by decide) (by decide)

/-- C10: whenever `Split{frame_idx}.apply` succeeds, the frame-bulk line
owning `frame_idx` (at in-bulk offset `repeat` with `0 < repeat <` its frame
count) is replaced by two adjacent frame-bulk lines equal to it in every
field except `frame_count`, whose frame counts are `repeat` and
`original − repeat` (each ≥ 1), every other line is unchanged, and the
document gains exactly one line. -/
theorem C10_split_shape (s s' : HLTAS) (inv : Option Nat) (frame_idx : Nat)
    (h : Operation.apply (.Split frame_idx) s = .ok (s', inv)) :
    ∃ li rep bulk,
      line_idx_and_repeat_at_frame s.lines frame_idx = some (li, rep) ∧
      s.lines[li]? = some (.FrameBulk bulk) ∧
      0 < rep ∧ rep < bulk.frame_count ∧ 1 ≤ bulk.frame_count - rep ∧
      s'.lines = s.lines.take li ++
        Line.FrameBulk { bulk with frame_count := rep } ::
        Line.FrameBulk { bulk with frame_count := bulk.frame_count - rep } ::
        s.lines.drop (li + 1) ∧
      s'.lines.length = s.lines.length + 1 := by
  simp only [Operation.apply] at h
  split at h
  · simp at h
  next li rep hrep =>
    split at h
    next hrpos =>
      split at h
      next bulk hgetb =>
        split at h
        next hsub =>
          simp only [Except.ok.injEq, Prod.mk.injEq] at h
          obtain ⟨rfl, rfl⟩ := h
          obtain ⟨b', hb', hlt'⟩ := lrep_getElem? s.lines frame_idx li rep hrep
          rw [hgetb] at hb'
          simp only [Option.some.injEq, Line.FrameBulk.injEq] at hb'
          subst hb'
          have hlen : li < s.lines.length := (List.getElem?_eq_some.mp hgetb).1
          refine ⟨li, rep, bulk, hrep, hgetb, hrpos, hlt', by omega, ?_, ?_⟩
          · exact set_insertIdx_eq_append s.lines li _ _ hlen
          · rw [List.length_insertIdx _ _ (by rw [List.length_set]; omega),
              List.length_set]
        · simp at h
      · simp at h
    · simp at h

/-- C10 witness: the split-shape theorem applied to `Split{frame_idx: 4}` on
the repeat-10 one-bulk document. -/
theorem C10_split_shape_witness :
    ∃ li rep bulk,
      line_idx_and_repeat_at_frame
        [Line.FrameBulk (plainBulk 10 (some 10) none)] 4 = some (li, rep) ∧
      [Line.FrameBulk (plainBulk 10 (some 10) none)][li]? =
        some (.FrameBulk bulk) ∧
      0 < rep ∧ rep < bulk.frame_count ∧ 1 ≤ bulk.frame_count - rep ∧
      [Line.FrameBulk (plainBulk 4 (some 10) none),
        Line.FrameBulk (plainBulk 6 (some 10) none)] =
        [Line.FrameBulk (plainBulk 10 (some 10) none)].take li ++
        Line.FrameBulk { bulk with frame_count := rep } ::
        Line.FrameBulk { bulk with frame_count := bulk.frame_count - rep } ::
        [Line.FrameBulk (plainBulk 10 (some 10) none)].drop (li + 1) ∧
      ([Line.FrameBulk (plainBulk 4 (some 10) none),
        Line.FrameBulk (plainBulk 6 (some 10) none)] : List Line).length =
        ([Line.FrameBulk (plainBulk 10 (some 10) none)] : List Line).length + 1 :=
  C10_split_shape ⟨[.FrameBulk (plainBulk 10 (some 10) none)]⟩
    ⟨[.FrameBulk (plainBulk 4 (some 10) none),
      .FrameBulk (plainBulk 6 (some 10) none)]⟩ none 4 (by decide)

/-! ### Durable encoding (C8)

Modelled from the spec (§4.4) and the source's comment that the enum is
stored as bincode bytes with a hard backwards-compatibility requirement: an
operation is encoded as its variant tag (the source-order variant index)
followed by a version-independent field encoding, and a decoder built for a
variant set of size `v` accepts exactly the tags below `v`. The byte stream
is abstracted as a stream of numbers. -/

def encNat (n : Nat) : List Nat := [n]

def decNat : List Nat → Option (Nat × List Nat)
  | n :: r => some (n, r)
  | [] => none

def encBool (b : Bool) : List Nat := [if b then 1 else 0]

def decBool : List Nat → Option (Bool × List Nat)
  | 0 :: r => some (false, r)
  | 1 :: r => some (true, r)
  | _ => none

def encInt : Int → List Nat
  | .ofNat n => [0, n]
  | .negSucc n => [1, n]

def decInt : List Nat → Option (Int × List Nat)
  | 0 :: n :: r => some (.ofNat n, r)
  | 1 :: n :: r => some (.negSucc n, r)
  | _ => none

def encOption {α : Type} (f : α → List Nat) : Option α → List Nat
  | none => [0]
  | some a => 1 :: f a

def decOption {α : Type} (f : List Nat → Option (α × List Nat)) :
    List Nat → Option (Option α × List Nat)
  | 0 :: r => some (none, r)
  | 1 :: r => (f r).map fun (a, r) => (some a, r)
  | _ => none

def encString (s : String) : List Nat := s.length :: s.data.map Char.toNat

def decChars : Nat → List Nat → Option (List Char × List Nat)
  | 0, r => some ([], r)
  | n + 1, c :: r => (decChars n r).map fun (cs, r) => (Char.ofNat c :: cs, r)
  | _ + 1, [] => none

def decString (l : List Nat) : Option (String × List Nat) :=
  (decNat l).bind fun (n, r) => (decChars n r).map fun (cs, r) => (String.mk cs, r)

def encMovementKeys (k : MovementKeys) : List Nat :=
  encBool k.forward ++ encBool k.left ++ encBool k.right ++
    encBool k.back ++ encBool k.up ++ encBool k.down

def decMovementKeys (l : List Nat) : Option (MovementKeys × List Nat) :=
  (decBool l).bind fun (f, r) => (decBool r).bind fun (le, r) =>
  (decBool r).bind fun (ri, r) => (decBool r).bind fun (ba, r) =>
  (decBool r).bind fun (u, r) => (decBool r).map fun (d, r) =>
  (⟨f, le, ri, ba, u, d⟩, r)

def encActionKeys (k : ActionKeys) : List Nat :=
  encBool k.jump ++ encBool k.duck ++ encBool k.use_ ++
    encBool k.attack_1 ++ encBool k.attack_2 ++ encBool k.reload

def decActionKeys (l : List Nat) : Option (ActionKeys × List Nat) :=
  (decBool l).bind fun (j, r) => (decBool r).bind fun (d, r) =>
  (decBool r).bind fun (u, r) => (decBool r).bind fun (a1, r) =>
  (decBool r).bind fun (a2, r) => (decBool r).map fun (re, r) =>
  (⟨j, d, u, a1, a2, re⟩, r)

def encFrameBulk (b : FrameBulk) : List Nat :=
  encNat b.frame_count ++ encOption encInt b.yaw ++
    encOption encNat b.left_right_count ++
    encMovementKeys b.movement_keys ++ encActionKeys b.action_keys

def decFrameBulk (l : List Nat) : Option (FrameBulk × List Nat) :=
  (decNat l).bind fun (c, r) => (decOption decInt r).bind fun (y, r) =>
  (decOption decNat r).bind fun (lrc, r) =>
  (decMovementKeys r).bind fun (mk, r) => (decActionKeys r).map fun (ak, r) =>
  (⟨c, y, lrc, mk, ak⟩, r)

def encLine : Line → List Nat
  | .FrameBulk b => 0 :: encFrameBulk b
  | .other s => 1 :: encString s

def decLine : List Nat → Option (Line × List Nat)
  | 0 :: r => (decFrameBulk r).map fun (b, r) => (Line.FrameBulk b, r)
  | 1 :: r => (decString r).map fun (s, r) => (Line.other s, r)
  | _ => none

def encKey : Key → List Nat
  | .Forward => [0]
  | .Left => [1]
  | .Right => [2]
  | .Back => [3]
  | .Up => [4]
  | .Down => [5]
  | .Jump => [6]
  | .Duck => [7]
  | .Use => [8]
  | .Attack1 => [9]
  | .Attack2 => [10]
  | .Reload => [11]

def decKey : List Nat → Option (Key × List Nat)
  | 0 :: r => some (.Forward, r)
  | 1 :: r => some (.Left, r)
  | 2 :: r => some (.Right, r)
  | 3 :: r => some (.Back, r)
  | 4 :: r => some (.Up, r)
  | 5 :: r => some (.Down, r)
  | 6 :: r => some (.Jump, r)
  | 7 :: r => some (.Duck, r)
  | 8 :: r => some (.Use, r)
  | 9 :: r => some (.Attack1, r)
  | 10 :: r => some (.Attack2, r)
  | 11 :: r => some (.Reload, r)
  | _ => none

/-- The variant tag of each operation: its index in the source's declaration
order, which the additive-only evolution policy freezes forever. -/
def Operation.tag : Operation → Nat
  | .SetFrameCount .. => 0
  | .SetYaw .. => 1
  | .Delete .. => 2
  | .Split .. => 3
  | .Replace .. => 4
  | .ToggleKey .. => 5
  | .Insert .. => 6
  | .SetLeftRightCount .. => 7

/-- The version-independent field encoding of each variant. -/
def Operation.payload : Operation → List Nat
  | .SetFrameCount bulk_idx from_ to_ => encNat bulk_idx ++ encNat from_ ++ encNat to_
  | .SetYaw bulk_idx from_ to_ => encNat bulk_idx ++ encInt from_ ++ encInt to_
  | .Delete line_idx line => encNat line_idx ++ encOption encLine line
  | .Split frame_idx => encNat frame_idx
  | .Replace line_idx from_ to_ =>
    encNat line_idx ++ encOption encLine from_ ++ encOption encLine to_
  | .ToggleKey bulk_idx key to_ => encNat bulk_idx ++ encKey key ++ encBool to_
  | .Insert line_idx line => encNat line_idx ++ encOption encLine line
  | .SetLeftRightCount bulk_idx from_ to_ =>
    encNat bulk_idx ++ encNat from_ ++ encNat to_

/-- An encoded operation: its frozen variant tag followed by its payload. -/
def encodeOperation (op : Operation) : List Nat := op.tag :: op.payload

/-- Field decoding of the variant with tag `t`. -/
def decodePayload : Nat → List Nat → Option (Operation × List Nat)
  | 0, l => (decNat l).bind fun (b, r) => (decNat r).bind fun (f, r) =>
      (decNat r).map fun (t, r) => (Operation.SetFrameCount b f t, r)
  | 1, l => (decNat l).bind fun (b, r) => (decInt r).bind fun (f, r) =>
      (decInt r).map fun (t, r) => (Operation.SetYaw b f t, r)
  | 2, l => (decNat l).bind fun (i, r) => (decOption decLine r).map fun (t, r) =>
      (Operation.Delete i t, r)
  | 3, l => (decNat l).map fun (i, r) => (Operation.Split i, r)
  | 4, l => (decNat l).bind fun (i, r) => (decOption decLine r).bind fun (f, r) =>
      (decOption decLine r).map fun (t, r) => (Operation.Replace i f t, r)
  | 5, l => (decNat l).bind fun (b, r) => (decKey r).bind fun (k, r) =>
      (decBool r).map fun (t, r) => (Operation.ToggleKey b k t, r)
  | 6, l => (decNat l).bind fun (i, r) => (decOption decLine r).map fun (t, r) =>
      (Operation.Insert i t, r)
  | 7, l => (decNat l).bind fun (b, r) => (decNat r).bind fun (f, r) =>
      (decNat r).map fun (t, r) => (Operation.SetLeftRightCount b f t, r)
  | _, _ => none

/-- The decoder of a version whose variant set has `numVariants` entries:
it accepts exactly the tags below `numVariants` and requires the stream to
be fully consumed. -/
def decodeOperation (numVariants : Nat) : List Nat → Option Operation
  | [] => none
  | t :: r =>
    if t < numVariants then
      (decodePayload t r).bind fun (op, rest) => if rest = [] then some op else none
    else none

/-! Round-trip lemmas for the field encoders. -/

theorem decNat_enc (n : Nat) (r : List Nat) : decNat (encNat n ++ r) = some (n, r) := rfl

theorem decBool_enc (b : Bool) (r : List Nat) :
    decBool (encBool b ++ r) = some (b, r) := by cases b <;> rfl

theorem decInt_enc (i : Int) (r : List Nat) :
    decInt (encInt i ++ r) = some (i, r) := by cases i <;> rfl

theorem decKey_enc (k : Key) (r : List Nat) :
    decKey (encKey k ++ r) = some (k, r) := by cases k <;> rfl

theorem decOption_enc {α : Type} (f : α → List Nat)
    (g : List Nat → Option (α × List Nat))
    (hfg : ∀ a r, g (f a ++ r) = some (a, r)) (o : Option α) (r : List Nat) :
    decOption g (encOption f o ++ r) = some (o, r) := by
  cases o with
  | none => rfl
  | some a => simp [encOption, decOption, hfg a r]

theorem decChars_enc (cs : List Char) (r : List Nat) :
    decChars cs.length (cs.map Char.toNat ++ r) = some (cs, r) := by
  induction cs with
  | nil => rfl
  | cons c cs ih => simp [decChars, ih, Char.ofNat_toNat]

theorem decString_enc (s : String) (r : List Nat) :
    decString (encString s ++ r) = some (s, r) := by
  obtain ⟨cs⟩ := s
  simp [encString, decString, decNat, String.length, decChars_enc cs r]

theorem decMovementKeys_enc (k : MovementKeys) (r : List Nat) :
    decMovementKeys (encMovementKeys k ++ r) = some (k, r) := by
  obtain ⟨f, le, ri, ba, u, d⟩ := k
  cases f <;> cases le <;> cases ri <;> cases ba <;> cases u <;> cases d <;> rfl

theorem decActionKeys_enc (k : ActionKeys) (r : List Nat) :
    decActionKeys (encActionKeys k ++ r) = some (k, r) := by
  obtain ⟨j, d, u, a1, a2, re⟩ := k
  cases j <;> cases d <;> cases u <;> cases a1 <;> cases a2 <;> cases re <;> rfl

theorem decFrameBulk_enc (b : FrameBulk) (r : List Nat) :
    decFrameBulk (encFrameBulk b ++ r) = some (b, r) := by
  obtain ⟨c, y, lrc, mk, ak⟩ := b
  simp [encFrameBulk, decFrameBulk, List.append_assoc, decNat_enc,
    decOption_enc encInt decInt decInt_enc, decOption_enc encNat decNat decNat_enc,
    decMovementKeys_enc, decActionKeys_enc]

theorem decLine_enc (l : Line) (r : List Nat) :
    decLine (encLine l ++ r) = some (l, r) := by
  cases l with
  | FrameBulk b => simp [encLine, decLine, decFrameBulk_enc]
  | other s => simp [encLine, decLine, decString_enc]

theorem decodePayload_enc (op : Operation) :
    decodePayload op.tag op.payload = some (op, []) := by
  have hline := decOption_enc encLine decLine decLine_enc
  have hline0 : ∀ o : LineText, decOption decLine (encOption encLine o) = some (o, []) :=
    fun o => by simpa using hline o []
  have hint0 : ∀ i : Int, decInt (encInt i) = some (i, []) :=
    fun i => by simpa using decInt_enc i []
  have hbool0 : ∀ b : Bool, decBool (encBool b) = some (b, []) :=
    fun b => by simpa using decBool_enc b []
  cases op <;>
    simp [Operation.tag, Operation.payload, decodePayload, List.append_assoc,
      decNat_enc, decInt_enc, decKey_enc, decBool_enc, hline, hline0, hint0,
      hbool0, decNat, encNat]

/-- C8: an operation encoded while its variant existed (tag below the
encoder's variant count `v`) decodes to the same operation — hence with
identical apply/undo behaviour — under every later version `v' ≥ v` whose
variant set extends the encoder's purely by appending; and, generally, any
stream an old decoder accepts is decoded identically by every newer
decoder. -/
theorem C8_encoding_evolution :
    (∀ (op : Operation) (v v' : Nat), op.tag < v → v ≤ v' →
      decodeOperation v' (encodeOperation op) = some op ∧
      ∀ (op' : Operation) (s : HLTAS),
        decodeOperation v' (encodeOperation op) = some op' →
        op'.apply s = op.apply s ∧ op'.undo s = op.undo s) ∧
    (∀ (v v' : Nat) (data : List Nat) (op : Operation), v ≤ v' →
      decodeOperation v data = some op → decodeOperation v' data = some op) := by
  have hdec : ∀ (op : Operation) (w : Nat), op.tag < w →
      decodeOperation w (encodeOperation op) = some op := by
    intro op w hw
    simp [encodeOperation, decodeOperation, hw, decodePayload_enc op]
  constructor
  · intro op v v' hv hvv'
    have h := hdec op v' (Nat.lt_of_lt_of_le hv hvv')
    refine ⟨h, fun op' s h' => ?_⟩
    rw [h] at h'
    injection h' with h'
    subst h'
    exact ⟨rfl, rfl⟩
  · intro v v' data op hvv' hdecode
    match data with
    | [] => simp [decodeOperation] at hdecode
    | t :: r =>
      simp only [decodeOperation] at hdecode ⊢
      by_cases ht : t < v
      · rw [if_pos (Nat.lt_of_lt_of_le ht hvv')]
        rw [if_pos ht] at hdecode
        exact hdecode
      · rw [if_neg ht] at hdecode
        simp at hdecode

/-- C8 witness: the evolution theorem applied to a concrete `SetFrameCount`
encoded at version 8 and decoded at version 10. -/
theorem C8_encoding_evolution_witness :
    decodeOperation 10 (encodeOperation (.SetFrameCount 0 6 10)) =
      some (.SetFrameCount 0 6 10) :=
  (C8_encoding_evolution.1 (.SetFrameCount 0 6 10) 8 10 (by decide) (by decide)).1

end TasStudio
